import Mathlib

/-!
# Terminal dashboard of the CPU emulator (`src/ui/ui.cc`)

A shallow embedding of `UserInterface`: the constructor's pre-flight scan, the
redraw controller (`render`, `cleanup`, `print`, `getline`), the execution loop
(`start`) and the panels `render_stack`, `render_data_segment`, `render_registers` and
`render_instructions`.

The engine (CPU, RAM, assembler, loader) and the ftxui backend are external to
`ui.cc`; they enter the embedding as the fields of `Engine` and `Ram`.  Terminal
and process effects are recorded, in program order, in a trace of `Event`s.
-/

set_option autoImplicit false

namespace UI

/-! ## Effects -/

/-- One observable effect of `ui.cc`; `σ` is the type of engine states. -/
inductive Event (σ : Type) where
  /-- The call `Render(screen, document.get())` on the document built from engine state `s`
  (line 279). -/
  | frame (s : σ)
  /-- The write `std::cout << s`. -/
  | cout (s : String)
  /-- The manipulator `std::flush`. -/
  | flush
  /-- The call `std::getline(std::cin, s)`, which returned `s`. -/
  | getline (s : String)
  /-- The call `std::this_thread::sleep_for(std::chrono::milliseconds(ms))`. -/
  | sleep (ms : Int)
  /-- A call of `cpu.step()`. -/
  | step
  /-- A call of `exit(code)`. -/
  | exit (code : Int)
  deriving DecidableEq, Repr

/-- The collaborators of `UserInterface` that `ui.cc` only calls. -/
structure Engine (σ : Type) where
  /-- The flag `cpu.get_control_unit().halt`. -/
  halt : σ → Bool
  /-- The call `cpu.step()`: the next engine state, or the thrown `const char *`. -/
  step : σ → Except String σ
  /-- The text `screen.ToString()` of the frame composed from an engine state. -/
  screenText : σ → String
  /-- The text `screen.ResetPosition()` of that frame. -/
  screenReset : σ → String
  /-- The value `static_cast<int>((60.0 / static_cast<float>(speed)) * 1000)` (line 300). -/
  wait_time : Int → Int

/-- The members of `UserInterface` that the loop and the redraw controller use. The counter
`n_lines` is only incremented and reset to 0; it is kept as an integer without wrap-around. -/
structure UserInterface (σ : Type) where
  interactive : Bool
  speed : Int
  cpu : σ
  reset_position : String
  n_lines : Int

/-- A running session: the object, the unread lines of `std::cin`, the effects so far. -/
structure Session (σ : Type) where
  ui : UserInterface σ
  stdin : List String
  out : List (Event σ)

/-- Append effects to the trace of a session. -/
def Session.emit {σ : Type} (s : Session σ) (es : List (Event σ)) : Session σ :=
  { s with out := s.out ++ es }

/-- The session after the engine has moved to state `c`. -/
def Session.set_cpu {σ : Type} (s : Session σ) (c : σ) : Session σ :=
  { s with ui := { s.ui with cpu := c } }

/-! ## Redraw controller -/

/-- The sequence `"\x1B[1A" << "\x1B[2K"` written by one pass of the loop in `cleanup`. -/
def up_and_clear {σ : Type} : List (Event σ) :=
  [Event.cout "\x1b[1A", Event.cout "\x1b[2K"]

/-- The loop `for (int i = 0; i < n_lines + 1; i++)` of `cleanup`, from counter value `i`. -/
def cleanup_loop {σ : Type} (n_lines : Int) (i : Int) : List (Event σ) :=
  if i < n_lines + 1 then up_and_clear ++ cleanup_loop n_lines (i + 1) else []
termination_by (n_lines + 1 - i).toNat
decreasing_by omega

/-- What the statement `if (n_lines) ...` of `cleanup` writes (lines 334-339). -/
def erase_events {σ : Type} (n_lines : Int) : List (Event σ) :=
  if n_lines ≠ 0 then
    [Event.cout "\r", Event.cout "\x1b[2K"] ++ cleanup_loop n_lines 0
  else []

/-- What `cleanup` writes (lines 332-339). -/
def cleanup_events {σ : Type} (reset_position : String) (n_lines : Int) : List (Event σ) :=
  Event.cout reset_position :: erase_events n_lines

/-- The member function `UserInterface::cleanup`. -/
def cleanup {σ : Type} (s : Session σ) : Session σ :=
  let s1 := s.emit (cleanup_events s.ui.reset_position s.ui.n_lines)
  { s1 with ui := { s1.ui with n_lines := 0 } }

/-- The member function `UserInterface::render` (lines 278-283). -/
def render {σ : Type} (E : Engine σ) (s : Session σ) : Session σ :=
  let s1 := s.emit [Event.frame s.ui.cpu]
  let s2 := cleanup s1
  let s3 := s2.emit [Event.cout (E.screenText s.ui.cpu), Event.flush]
  { s3 with ui := { s3.ui with reset_position := E.screenReset s.ui.cpu } }

/-- The effects of one call of `render` on the members `u`: the frame is composed, `cleanup`
writes, then the frame text is written and flushed. -/
def render_events {σ : Type} (E : Engine σ) (u : UserInterface σ) : List (Event σ) :=
  Event.frame u.cpu :: cleanup_events u.reset_position u.n_lines ++
    [Event.cout (E.screenText u.cpu), Event.flush]

/-- The loop of `print` over the characters of `s` (lines 318-320). -/
def count_newlines (n_lines : Int) : List Char → Int
  | [] => n_lines
  | c :: cs => count_newlines (if c = '\n' then n_lines + 1 else n_lines) cs

/-- The member function `UserInterface::print`. -/
def print {σ : Type} (str : String) (s : Session σ) : Session σ :=
  let s1 := s.emit [Event.cout str]
  { s1 with ui := { s1.ui with n_lines := count_newlines s1.ui.n_lines str.data } }

/-- The member function `UserInterface::getline`; at end of input `std::getline` leaves `s` empty. -/
def getline {σ : Type} (s : Session σ) : String × Session σ :=
  let line := s.stdin.headD ""
  let s1 : Session σ := { s with stdin := s.stdin.tail, out := s.out ++ [Event.getline line] }
  (line, { s1 with ui := { s1.ui with n_lines := s1.ui.n_lines + 1 } })

/-! ## Execution loop -/

/-- The prompt printed in interactive mode (line 292). -/
def PROMPT : String := "> press enter to step, type quit, exit or q to close\n"

/-- The test `s == "q" || s == "quit" || s == "exit"` (line 294). -/
def is_quit (s : String) : Bool :=
  s == "q" || s == "quit" || s == "exit"

/-- One pass of the loop body up to the `try` (lines 290-302): the session there, and whether
the `break` of line 295 was taken. -/
def before_step {σ : Type} (E : Engine σ) (s : Session σ) : Session σ × Bool :=
  let s1 := render E s
  if s1.ui.interactive then
    let s2 := print PROMPT s1
    let r := getline s2
    (r.2, is_quit r.1)
  else
    (s1.emit [Event.sleep (E.wait_time s1.ui.speed)], false)

/-- How a call of `start` stands after a bounded number of loop tests. -/
inductive Outcome (σ : Type) where
  /-- The loop is still running (the bound was reached). -/
  | running (s : Session σ)
  /-- The function `start` returned. -/
  | returned (s : Session σ)
  /-- The process ended in `exit(code)`. -/
  | exited (code : Int) (s : Session σ)

/-- The session of an outcome. -/
def Outcome.session {σ : Type} : Outcome σ → Session σ
  | .running s => s
  | .returned s => s
  | .exited _ s => s

/-- The member function `UserInterface::start`, for at most `fuel` tests of `!cu.halt`. -/
def start {σ : Type} (E : Engine σ) : Nat → Session σ → Outcome σ
  | 0, s => .running s
  | fuel + 1, s =>
    if E.halt s.ui.cpu then .returned s
    else
      let r := before_step E s
      if r.2 then .returned r.1
      else
        let s1 := r.1.emit [Event.step]
        match E.step s1.ui.cpu with
        | .ok c => start E fuel (s1.set_cpu c)
        | .error m => .exited 0 (s1.emit [Event.cout m, Event.cout "\n", Event.exit 0])

/-- Whether an effect is terminal output (`std::cout`). -/
def Event.is_output {σ : Type} : Event σ → Bool
  | .cout _ => true
  | .flush => true
  | _ => false

/-- The effects of a trace other than terminal output: frames rendered, lines read, sleeps,
steps and exits, in order. -/
def control {σ : Type} (es : List (Event σ)) : List (Event σ) :=
  es.filter (fun e => !e.is_output)

/-- The session at the loop test of `start` after `k` complete passes of the loop, if the loop
makes that many. -/
def after_cycles {σ : Type} (E : Engine σ) : Nat → Session σ → Option (Session σ)
  | 0, s => some s
  | k + 1, s =>
    if E.halt s.ui.cpu then none
    else
      let r := before_step E s
      if r.2 then none
      else
        let s1 := r.1.emit [Event.step]
        match E.step s1.ui.cpu with
        | .ok c => after_cycles E k (s1.set_cpu c)
        | .error _ => none

/-- The spec's "trimmed input": a line without its leading and trailing whitespace. -/
def trimmed (s : String) : String :=
  ⟨((s.data.dropWhile Char.isWhitespace).reverse.dropWhile Char.isWhitespace).reverse⟩

/-- A call made between two renders that touches the line count. -/
inductive IoOp where
  /-- A call `print(s)`. -/
  | print (s : String)
  /-- A call `getline()`. -/
  | getline

/-- Run a sequence of `print` and `getline` calls. -/
def run_io {σ : Type} : List IoOp → Session σ → Session σ
  | [], s => s
  | .print str :: ops, s => run_io ops (print str s)
  | .getline :: ops, s => run_io ops (getline s).2

/-- The number of newline characters written by the `print` calls of a sequence. -/
def io_newlines : List IoOp → Nat
  | [] => 0
  | .print str :: ops => str.data.count '\n' + io_newlines ops
  | .getline :: ops => io_newlines ops

/-- The number of `getline` calls of a sequence. -/
def io_reads : List IoOp → Nat
  | [] => 0
  | .print _ :: ops => io_reads ops
  | .getline :: ops => 1 + io_reads ops

/-! ## Constructor -/

/-- Modelled from the spec: the enumeration `instruction_code` is declared outside `ui.cc`; the
spec only distinguishes the halt opcode from every other opcode. -/
inductive instruction_code where
  | hlt
  | other (n : Nat)
  deriving DecidableEq, Repr

/-- The assembler, the loader and the freshly constructed engine, which the constructor calls. -/
structure Toolchain (ι σ : Type) where
  /-- The call `assembler.assemble()` on the source text. -/
  assemble : String → List ι
  /-- The call `instruction->get_code()`. -/
  get_code : ι → instruction_code
  /-- The engine state after the member initialisers `ram()`, `cpu(ram)`. -/
  fresh : σ
  /-- The call `loader.load(program)`. -/
  load : List ι → σ → σ

/-- The scan for a halt instruction (lines 14-20). -/
def found_hlt {ι : Type} (get_code : ι → instruction_code) : List ι → Bool
  | [] => false
  | i :: rest => if get_code i = instruction_code.hlt then true else found_hlt get_code rest

/-- The advisory of line 23. -/
def WARNING : String :=
  "[\x1b[95mWARNING\x1b[0m] program does not include a halt instruction, this will might cause a segmentation fault.\n"

/-- The constructor `UserInterface::UserInterface`; `reset_position` and `n_lines` start at the
values `rp0` and `n0` given by their declarations. -/
def construct {ι σ : Type} (T : Toolchain ι σ) (c : String) (i : Bool) (s : Int)
    (rp0 : String) (n0 : Int) (stdin : List String) : Session σ :=
  let program := T.assemble c
  let out : List (Event σ) :=
    if !found_hlt T.get_code program then [Event.cout WARNING] else []
  { ui := { interactive := i, speed := s, cpu := T.load program T.fresh,
            reset_position := rp0, n_lines := n0 },
    stdin := stdin, out := out }

/-! ## Stack panel -/

/-- Modelled from the spec: one hex digit, lowercase (the helper is outside `ui.cc`). -/
def hex_digit (d : Nat) : Char :=
  if d < 10 then Char.ofNat (48 + d) else Char.ofNat (87 + d)

/-- Modelled from the spec: `helpers::to_hex(byte, "")` is outside `ui.cc`; by the spec it gives
exactly two lowercase hex digits and no prefix. -/
def to_hex (byte : Nat) : String :=
  ⟨[hex_digit (byte / 16 % 16), hex_digit (byte % 16)]⟩

/-- Hex pairs of a row of bytes, left to right, separated by single spaces. -/
def hex_line : List Nat → String
  | [] => ""
  | [b] => to_hex b
  | b :: c :: rest => to_hex b ++ " " ++ hex_line (c :: rest)

/-- The constants of the stack panel, which are defined outside `ui.cc`. -/
structure StackConstants where
  STACK_HEIGHT : Nat
  STACK_BYTES_PER_LINE : Nat
  LOADER_DEFAULT_STACK_SIZE : Nat

/-- The memory, which `ui.cc` only reads. -/
structure Ram where
  /-- The call `ram.get_data(address, length)`: a vector of bytes. -/
  get_data : Int → Int → List Nat

/-- The conversion `static_cast<int>` of a 64-bit unsigned value. -/
def to_int (x : Nat) : Int :=
  if x % 2 ^ 32 < 2 ^ 31 then (x % 2 ^ 32 : Nat) else (x % 2 ^ 32 : Nat) - 2 ^ 32

/-- The value `stack_bottom` of `render_stack` (line 144). -/
def stack_bottom (K : StackConstants) (ss : Nat) : Int :=
  to_int ((ss + K.LOADER_DEFAULT_STACK_SIZE) % 2 ^ 64)

/-- The value `stack_top` of `render_stack` (line 145). -/
def stack_top (ss sp : Nat) : Int :=
  to_int ((ss + sp) % 2 ^ 64)

/-- The bytes read by `render_stack` (line 147). -/
def read_stack (K : StackConstants) (ram : Ram) (ss sp : Nat) : List Nat :=
  ram.get_data (stack_top ss sp) (min (stack_bottom K ss - stack_top ss sp) (30 * 4))

/-- The loop of `render_stack` over the bytes (lines 153-161), from counter `i`, with the
current line and the lines pushed so far; `helpers::to_wstring` is the identity on the text. -/
def stack_loop (k ii : Nat) : Nat → String → List String → List Nat → List String × String
  | _, current_line, lines, [] => (lines, current_line)
  | i, current_line, lines, byte :: rest =>
    let st : List String × String :=
      if i > ii ∧ i % k = 0 then (lines ++ [current_line], "")
      else if i > ii then (lines, " " ++ current_line)
      else (lines, current_line)
    stack_loop k ii (i + 1) (to_hex byte ++ st.2) st.1 rest

/-- The vector `lines` of `render_stack` after line 162, for `k = STACK_BYTES_PER_LINE`. -/
def stack_content_lines (k : Nat) (stack : List Nat) : List String :=
  let ii := k - stack.length % k
  let r := stack_loop k ii ii "" [] stack
  if r.2 ≠ "" then r.1 ++ [r.2] else r.1

/-- A layout node of the rendering backend. -/
inductive Element where
  | text (s : String)
  | separator
  | vbox (children : List Element)
  | hbox (children : List Element)
  | decorated (decorator : String) (child : Element)

/-- The vector `stack_lines` of `render_stack` (lines 164-168): `extend_lines` blank texts, then
one text per content line. -/
def stack_lines (K : StackConstants) (stack : List Nat) : List Element :=
  let lines := stack_content_lines K.STACK_BYTES_PER_LINE stack
  let extend_lines : Int := (K.STACK_HEIGHT : Int) - (lines.length : Int)
  List.replicate extend_lines.toNat (Element.text "") ++ lines.map Element.text

/-- The member function `UserInterface::render_stack`, on the values of `rsp` and `ss`. -/
def render_stack (K : StackConstants) (ram : Ram) (ss sp : Nat) : Element :=
  .decorated "border" (.decorated "size(WIDTH, EQUAL, 13)" (.vbox [
    .decorated "padding(1)" (.decorated "color(Color::GrayDark)"
      (.vbox (stack_lines K (read_stack K ram ss sp)))),
    .separator,
    .text " Stack"]))

/-- The groups of bytes, in read order, that follow a current group `g`: a group is closed
before a byte when the bytes still to read, that one included, are a multiple of `k`. -/
def groups_from (k : Nat) : List Nat → List Nat → List (List Nat)
  | g, [] => [g]
  | g, b :: rest =>
    if (rest.length + 1) % k = 0 then g :: groups_from k [b] rest
    else groups_from k (g ++ [b]) rest

/-- The groups of bytes, in read order, of the content lines of the stack panel. -/
def stack_groups (k : Nat) : List Nat → List (List Nat)
  | [] => []
  | b :: rest => groups_from k [b] rest

/-! ## Data-segment, registers and instructions panels -/

/-- The loop of `render_data_segment` over the bytes (lines 37-45), from counter `i`, with the
current line and the lines pushed so far, for `m = MEMORY_BYTES_PER_LINE`. -/
def data_loop (m : Nat) : Nat → String → List String → List Nat → List String × String
  | _, current_line, lines, [] => (lines, current_line)
  | i, current_line, lines, byte :: rest =>
    let st : List String × String :=
      if i > 0 ∧ i % m = 0 then (lines ++ [current_line], "")
      else if i ≠ 0 then (lines, current_line ++ " ")
      else (lines, current_line)
    data_loop m (i + 1) (st.2 ++ to_hex byte) st.1 rest

/-- The vector `lines` of `render_data_segment` after line 47. -/
def data_lines (m : Nat) (data : List Nat) : List String :=
  let r := data_loop m 0 "" [] data
  if r.2 ≠ "" then r.1 ++ [r.2] else r.1

/-- The member function `UserInterface::render_data_segment`, on the value of `ds`. -/
def render_data_segment (m : Nat) (ram : Ram) (ds : Nat) : Element :=
  .decorated "border" (.vbox [
    .decorated "padding(1)" (.text "Data"),
    .separator,
    .decorated "padding(1)" (.decorated "color(Color::GrayDark)"
      (.vbox ((data_lines m (ram.get_data ds 108)).map Element.text)))])

/-- Modelled from the spec: `helpers::zero_extend` is outside `ui.cc`; by the spec it pads with
`'0'` on the left up to `width` characters and leaves a longer text as it is. -/
def zero_extend (s : String) (width : Nat) : String :=
  String.mk (List.replicate (width - s.length) '0') ++ s

/-- One entry of the register mapping, as `render_registers` reads it. -/
structure Register where
  /-- The text `Register::to_string(reg->get_code())`. -/
  name : String
  /-- The value `reg->get_value()`. -/
  value : Nat
  /-- Whether `std::dynamic_pointer_cast<FullRegister>(reg)` is not null. -/
  full : Bool
  deriving DecidableEq, Repr

/-- The cell of one register (lines 76-81); `hex` is `helpers::to_hex(value, "")` on a register
value or an address, which is outside `ui.cc`. -/
def register_cell (hex : Int → String) (reg : Register) : Element :=
  .decorated "notflex" (.decorated "padding(1)" (.hbox [
    .decorated "size(WIDTH, EQUAL, 5)" (.decorated "align_right" (.text reg.name)),
    .text " ",
    .decorated "color(Color::GrayDark)" (.text (zero_extend (hex reg.value) 16))]))

/-- The loop of `render_registers` over the mapping in iteration order (lines 66-84), from
counter `i`, with the current line and the rows pushed so far, for `r = REGISTERS_PER_LINE`. -/
def registers_loop (r : Nat) (hex : Int → String) :
    Nat → List Element → List Element → List Register → List Element × List Element
  | _, current_line, elements, [] => (elements, current_line)
  | i, current_line, elements, reg :: rest =>
    if reg.full = false then registers_loop r hex i current_line elements rest
    else
      let st : List Element × List Element :=
        if i > 0 ∧ i % r = 0 then (elements ++ [Element.hbox current_line], [])
        else (elements, current_line)
      registers_loop r hex (i + 1) (st.2 ++ [register_cell hex reg]) st.1 rest

/-- The vector `elements` of `render_registers` after line 85. -/
def register_elements (r : Nat) (hex : Int → String) (registers : List Register) :
    List Element :=
  let st := registers_loop r hex 0 [] [] registers
  st.1 ++ [Element.hbox st.2]

/-- The member function `UserInterface::render_registers`. -/
def render_registers (r : Nat) (hex : Int → String) (registers : List Register) : Element :=
  .decorated "border" (.vbox (register_elements r hex registers))

/-- The result of an `int` operation whose exact value is `x`: the value itself when it is in the
range of `int`, else its two's-complement wrap-around (the C++ behaviour is then undefined). -/
def wrap_int (x : Int) : Int :=
  (x + 2 ^ 31) % 2 ^ 32 - 2 ^ 31

/-- Whether an exact value is in the range of `int`, so that the operation giving it does not
overflow. -/
def in_int_range (x : Int) : Prop :=
  -2 ^ 31 ≤ x ∧ x < 2 ^ 31

instance in_int_range_decidable (x : Int) : Decidable (in_int_range x) :=
  inferInstanceAs (Decidable (-2 ^ 31 ≤ x ∧ x < 2 ^ 31))

/-- The value `current_instruction` of `render_instructions` (line 99), on the values of the
instruction pointer and of `cs`. -/
def current_instruction (ip cs : Nat) : Int :=
  wrap_int (to_int ip + to_int cs)

/-- The value `start_address` of `render_instructions` (line 101), for
`R = INSTRUCTIONS_RANGE`. -/
def start_address (R : Nat) (ip cs : Nat) : Int :=
  max (to_int cs) (wrap_int (current_instruction ip cs - wrap_int ((R : Int) * 8)))

/-- The number of instructions that `render_instructions` asks for (line 102). -/
def instructions_count (R : Nat) : Int :=
  wrap_int ((R : Int) * 2)

/-- The disassembly of the memory, which `ui.cc` only reads. -/
structure InstructionMemory where
  /-- The call `ram.get_instructions(address, count)`: pairs of an address and a text. -/
  get_instructions : Int → Int → List (Int × String)

/-- The vector `instructions` of `render_instructions` (line 102). -/
def read_instructions (R : Nat) (mem : InstructionMemory) (ip cs : Nat) :
    List (Int × String) :=
  mem.get_instructions (start_address R ip cs) (instructions_count R)

/-- The element `address_e` pushed for one pair (lines 106-114). -/
def address_element (hex : Int → String) (current : Int) (p : Int × String) : Element :=
  let address_e := Element.decorated "align_right" (.text (zero_extend (hex p.1) 8))
  if p.1 ≠ current then .decorated "color(Color::GrayDark)" address_e else address_e

/-- The element `instruction_e` pushed for one pair (lines 107-115). -/
def instruction_element (current : Int) (p : Int × String) : Element :=
  let instruction_e := Element.text p.2
  if p.1 ≠ current then .decorated "color(Color::GrayDark)" instruction_e else instruction_e

/-- The loop of `render_instructions` over the pairs (lines 105-116), with the two vectors
filled so far. -/
def instructions_loop (hex : Int → String) (current : Int) :
    List Element → List Element → List (Int × String) → List Element × List Element
  | addresses_elements, instructions_elements, [] => (addresses_elements, instructions_elements)
  | addresses_elements, instructions_elements, p :: rest =>
    instructions_loop hex current (addresses_elements ++ [address_element hex current p])
      (instructions_elements ++ [instruction_element current p]) rest

/-- The vectors `addresses_elements` and `instructions_elements` of `render_instructions`. -/
def instruction_rows (R : Nat) (hex : Int → String) (mem : InstructionMemory) (ip cs : Nat) :
    List Element × List Element :=
  instructions_loop hex (current_instruction ip cs) [] [] (read_instructions R mem ip cs)

/-- The member function `UserInterface::render_instructions`, on the values of the instruction
pointer and of `cs`. -/
def render_instructions (R : Nat) (hex : Int → String) (mem : InstructionMemory)
    (ip cs : Nat) : Element :=
  let rows := instruction_rows R hex mem ip cs
  .decorated "border" (.vbox [
    .hbox [
      .decorated "flex" (.decorated "padding(1)" (.text "instructions")),
      .separator,
      .decorated "notflex" (.decorated "padding(1)" (.hbox [
        .text "rip", .text " ",
        .decorated "color(Color::GrayDark)" (.text (zero_extend (hex ip) 16))]))],
    .separator,
    .hbox [
      .decorated "size(HEIGHT, EQUAL, 30)" (.decorated "size(WIDTH, EQUAL, 10)"
        (.decorated "padding(1)" (.vbox rows.1))),
      .separator,
      .decorated "padding(1)" (.vbox rows.2)]])

/-- The rows that follow a current row `g` when `j` cells came before its last cell: a row is
closed before a cell when the cells so far are a multiple of `m`. -/
def rows_from {α : Type} (m : Nat) : Nat → List α → List α → List (List α)
  | _, g, [] => [g]
  | j, g, b :: rest =>
    if (j + 1) % m = 0 then g :: rows_from m (j + 1) [b] rest
    else rows_from m (j + 1) (g ++ [b]) rest

/-- The rows of at most `m` cells of a list, in order. -/
def rows_of {α : Type} (m : Nat) : List α → List (List α)
  | [] => []
  | b :: rest => rows_from m 0 [b] rest

/-- The rows of registers of the registers panel: the final row is always pushed, also when
it is empty. -/
def register_rows (r : Nat) : List Register → List (List Register)
  | [] => [[]]
  | b :: rest => rows_from r 0 [b] rest

/-! ## Test engine -/

/-- A small engine on counters: it halts at 2, faults at 7, and otherwise counts up. -/
def demoEngine : Engine Nat where
  halt := fun c => decide (c = 2)
  step := fun c => if c = 7 then .error "fault" else .ok (c + 1)
  screenText := fun c => "frame" ++ toString c
  screenReset := fun c => "home" ++ toString c
  wait_time := fun speed => 60000 / speed

/-- A toolchain whose programs are lists of opcodes and whose loader sets the counter to 0. -/
def demoToolchain (program : List instruction_code) : Toolchain instruction_code Nat where
  assemble := fun _ => program
  get_code := fun i => i
  fresh := 5
  load := fun _ _ => 0

/-- A session on the test engine. -/
def demoSession (interactive : Bool) (c : Nat) (stdin : List String) : Session Nat :=
  { ui := { interactive := interactive, speed := 60, cpu := c, reset_position := "", n_lines := 0 },
    stdin := stdin, out := [] }

/-- Stack constants for the examples: 30 lines of 4 bytes, a stack of 1024 bytes. -/
def demoConstants : StackConstants :=
  { STACK_HEIGHT := 30, STACK_BYTES_PER_LINE := 4, LOADER_DEFAULT_STACK_SIZE := 1024 }

/-- A memory for the examples: byte `a mod 256` at address `a`. -/
def demoRam : Ram where
  get_data := fun a n => (List.range n.toNat).map (fun (j : Nat) => ((a + (j : Int)) % 256).toNat)

/-- Stack constants for the examples with a panel lower than its content: 3 lines of 4 bytes. -/
def demoLowConstants : StackConstants :=
  { STACK_HEIGHT := 3, STACK_BYTES_PER_LINE := 4, LOADER_DEFAULT_STACK_SIZE := 1024 }

/-- A register mapping for the examples: eight full registers and two aliases. -/
def demoRegisters : List Register :=
  [⟨"rax", 1, true⟩, ⟨"eax", 1, false⟩, ⟨"rbx", 2, true⟩, ⟨"rcx", 3, true⟩, ⟨"rdx", 4, true⟩,
   ⟨"ax", 1, false⟩, ⟨"rsi", 5, true⟩, ⟨"rdi", 6, true⟩, ⟨"rsp", 7, true⟩, ⟨"rbp", 8, true⟩]

/-- A stand-in for the hex text of a value in the examples. -/
def demoHex (v : Int) : String := toString v

/-- A disassembly for the examples: one instruction every 8 bytes. -/
def demoInstructions : InstructionMemory where
  get_instructions := fun a n =>
    (List.range n.toNat).map (fun (j : Nat) => (a + 8 * (j : Int), "nop"))

/-- The session of the test engine after one timed pass from counter 6: the next step faults. -/
def demoFaulting : Session Nat :=
  ((before_step demoEngine (demoSession false 6 [])).1.emit [Event.step]).set_cpu 7

/-! ## Lemmas on the redraw controller -/

section Redraw

variable {σ : Type}

theorem cleanup_loop_eq (n i : Int) :
    (cleanup_loop n i : List (Event σ)) =
      (List.replicate (n + 1 - i).toNat up_and_clear).flatten := by
  generalize hm : (n + 1 - i).toNat = m
  induction m generalizing i with
  | zero =>
    rw [cleanup_loop]
    have : ¬ i < n + 1 := by omega
    simp [this]
  | succ m ih =>
    rw [cleanup_loop]
    have h1 : i < n + 1 := by omega
    have h2 : (n + 1 - (i + 1)).toNat = m := by omega
    simp [h1, ih (i + 1) h2, List.replicate_succ]

theorem control_append (a b : List (Event σ)) : control (a ++ b) = control a ++ control b := by
  simp [control]

theorem control_replicate_up (m : Nat) :
    control (List.replicate m (up_and_clear : List (Event σ))).flatten = [] := by
  induction m with
  | zero => simp [control]
  | succ m ih =>
    simp only [List.replicate_succ, List.flatten_cons, control_append, ih]
    simp [control, up_and_clear, Event.is_output]

theorem control_erase_events (n : Int) : control (erase_events n : List (Event σ)) = [] := by
  unfold erase_events
  split
  · rw [cleanup_loop_eq, control_append, control_replicate_up]
    simp [control, Event.is_output]
  · simp [control]

theorem control_cleanup_events (rp : String) (n : Int) :
    control (cleanup_events rp n : List (Event σ)) = [] := by
  unfold cleanup_events
  rw [← List.singleton_append, control_append, control_erase_events]
  simp [control, Event.is_output]

theorem render_eq (E : Engine σ) (s : Session σ) :
    render E s =
      { ui := { s.ui with reset_position := E.screenReset s.ui.cpu, n_lines := 0 },
        stdin := s.stdin,
        out := s.out ++ render_events E s.ui } := by
  simp [render, cleanup, Session.emit, render_events]

theorem control_render_events (E : Engine σ) (u : UserInterface σ) :
    control (render_events E u) = [Event.frame u.cpu] := by
  have h : control (cleanup_events u.reset_position u.n_lines : List (Event σ)) = [] :=
    control_cleanup_events u.reset_position u.n_lines
  unfold render_events
  rw [List.cons_append, ← List.singleton_append, control_append, control_append, h]
  simp [control, Event.is_output]

theorem count_newlines_eq (n : Int) (cs : List Char) :
    count_newlines n cs = n + (cs.count '\n' : Nat) := by
  induction cs generalizing n with
  | nil => simp [count_newlines]
  | cons c cs ih =>
    rw [count_newlines, ih]
    by_cases h : c = '\n'
    · subst h
      simp only [if_true, List.count_cons_self]
      push_cast
      ring
    · have h2 : ('\n' == c) = false := by
        simp only [beq_eq_false_iff_ne, ne_eq]
        exact fun h3 => h h3.symm
      simp [h, List.count_cons, h2]

end Redraw

/-! ## Lemmas on the execution loop -/

section Loop

variable {σ : Type}

theorem before_step_timed (E : Engine σ) (s : Session σ) (h : s.ui.interactive = false) :
    before_step E s =
      ({ ui := { s.ui with reset_position := E.screenReset s.ui.cpu, n_lines := 0 },
         stdin := s.stdin,
         out := s.out ++ (render_events E s.ui ++ [Event.sleep (E.wait_time s.ui.speed)]) },
       false) := by
  simp [before_step, render_eq, h, Session.emit]

theorem prompt_newlines : count_newlines 0 PROMPT.data = 1 := by decide

theorem before_step_interactive (E : Engine σ) (s : Session σ) (h : s.ui.interactive = true) :
    before_step E s =
      ({ ui := { s.ui with reset_position := E.screenReset s.ui.cpu, n_lines := 2 },
         stdin := s.stdin.tail,
         out := s.out ++ (render_events E s.ui ++
                  [Event.cout PROMPT, Event.getline (s.stdin.headD "")]) },
       is_quit (s.stdin.headD "")) := by
  simp [before_step, render_eq, h, Session.emit, print, getline, prompt_newlines]

theorem before_step_cpu (E : Engine σ) (s : Session σ) :
    (before_step E s).1.ui.cpu = s.ui.cpu := by
  cases h : s.ui.interactive
  · rw [before_step_timed E s h]
  · rw [before_step_interactive E s h]

theorem before_step_out (E : Engine σ) (s : Session σ) :
    ∃ new, (before_step E s).1.out = s.out ++ new := by
  cases h : s.ui.interactive
  · rw [before_step_timed E s h]; exact ⟨_, rfl⟩
  · rw [before_step_interactive E s h]; exact ⟨_, rfl⟩

theorem is_quit_iff (l : String) :
    is_quit l = true ↔ (l = "q" ∨ l = "quit" ∨ l = "exit") := by
  simp [is_quit, or_assoc]

theorem start_halted (E : Engine σ) (fuel : Nat) (s : Session σ)
    (hh : E.halt s.ui.cpu = true) : start E (fuel + 1) s = .returned s := by
  rw [start]; simp [hh]

theorem start_break (E : Engine σ) (fuel : Nat) (s : Session σ)
    (hh : E.halt s.ui.cpu = false) (hq : (before_step E s).2 = true) :
    start E (fuel + 1) s = .returned (before_step E s).1 := by
  rw [start]; simp [hh, hq]

theorem start_ok (E : Engine σ) (fuel : Nat) (s : Session σ) (c : σ)
    (hh : E.halt s.ui.cpu = false) (hq : (before_step E s).2 = false)
    (hs : E.step s.ui.cpu = .ok c) :
    start E (fuel + 1) s = start E fuel (((before_step E s).1.emit [Event.step]).set_cpu c) := by
  rw [start]
  simp only [hh, hq, Bool.false_eq_true, if_false]
  have : ((before_step E s).1.emit [Event.step]).ui.cpu = s.ui.cpu := before_step_cpu E s
  rw [this, hs]

theorem start_fault (E : Engine σ) (fuel : Nat) (s : Session σ) (m : String)
    (hh : E.halt s.ui.cpu = false) (hq : (before_step E s).2 = false)
    (hs : E.step s.ui.cpu = .error m) :
    start E (fuel + 1) s =
      .exited 0 ((before_step E s).1.emit
        [Event.step, Event.cout m, Event.cout "\n", Event.exit 0]) := by
  rw [start]
  simp only [hh, hq, Bool.false_eq_true, if_false]
  have : ((before_step E s).1.emit [Event.step]).ui.cpu = s.ui.cpu := before_step_cpu E s
  rw [this, hs]
  simp [Session.emit]

/-- A call of `start` only appends to the trace. -/
theorem start_out (E : Engine σ) (fuel : Nat) (s : Session σ) :
    ∃ new, (start E fuel s).session.out = s.out ++ new := by
  induction fuel generalizing s with
  | zero => exact ⟨[], by simp [start, Outcome.session]⟩
  | succ fuel ih =>
    cases hh : E.halt s.ui.cpu
    · obtain ⟨new, hnew⟩ := before_step_out E s
      cases hq : (before_step E s).2
      · cases hs : E.step s.ui.cpu with
        | error m =>
          rw [start_fault E fuel s m hh hq hs]
          exact ⟨new ++ [Event.step, Event.cout m, Event.cout "\n", Event.exit 0],
            by simp [Outcome.session, Session.emit, hnew]⟩
        | ok c =>
          rw [start_ok E fuel s c hh hq hs]
          obtain ⟨new2, hnew2⟩ := ih (((before_step E s).1.emit [Event.step]).set_cpu c)
          exact ⟨new ++ [Event.step] ++ new2, by
            rw [hnew2]; simp [Session.emit, Session.set_cpu, hnew]⟩
      · rw [start_break E fuel s hh hq]
        exact ⟨new, by simp [Outcome.session, hnew]⟩
    · rw [start_halted E fuel s hh]
      exact ⟨[], by simp [Outcome.session]⟩

/-- A pass of the loop starts by composing the frame of the current engine state. -/
theorem start_first_frame (E : Engine σ) (fuel : Nat) (s : Session σ)
    (hh : E.halt s.ui.cpu = false) :
    ∃ rest, (start E (fuel + 1) s).session.out = s.out ++ Event.frame s.ui.cpu :: rest := by
  have hb : ∃ more, (before_step E s).1.out = s.out ++ Event.frame s.ui.cpu :: more := by
    cases h : s.ui.interactive
    · rw [before_step_timed E s h]
      exact ⟨cleanup_events s.ui.reset_position s.ui.n_lines ++
        [Event.cout (E.screenText s.ui.cpu), Event.flush] ++
        [Event.sleep (E.wait_time s.ui.speed)], by simp only [render_events, List.cons_append]⟩
    · rw [before_step_interactive E s h]
      exact ⟨cleanup_events s.ui.reset_position s.ui.n_lines ++
        [Event.cout (E.screenText s.ui.cpu), Event.flush] ++
        [Event.cout PROMPT, Event.getline (s.stdin.headD "")],
        by simp only [render_events, List.cons_append]⟩
  obtain ⟨more, hmore⟩ := hb
  cases hq : (before_step E s).2
  · cases hs : E.step s.ui.cpu with
    | error m =>
      rw [start_fault E fuel s m hh hq hs]
      exact ⟨more ++ [Event.step, Event.cout m, Event.cout "\n", Event.exit 0],
        by simp [Outcome.session, Session.emit, hmore]⟩
    | ok c =>
      rw [start_ok E fuel s c hh hq hs]
      obtain ⟨new2, hnew2⟩ := start_out E fuel (((before_step E s).1.emit [Event.step]).set_cpu c)
      exact ⟨more ++ [Event.step] ++ new2, by
        rw [hnew2]; simp [Session.emit, Session.set_cpu, hmore]⟩
  · rw [start_break E fuel s hh hq]
    exact ⟨more, by simp [Outcome.session, hmore]⟩

theorem mem_control {e : Event σ} {es : List (Event σ)} (he : e.is_output = false) :
    e ∈ control es ↔ e ∈ es := by
  simp [control, he]

/-- Passes of the loop that were made can be skipped. -/
theorem start_after_cycles (E : Engine σ) (k fuel : Nat) (s0 s : Session σ)
    (h : after_cycles E k s0 = some s) : start E (k + fuel) s0 = start E fuel s := by
  induction k generalizing s0 with
  | zero =>
    simp only [after_cycles, Option.some.injEq] at h
    simp [h]
  | succ k ih =>
    rw [after_cycles] at h
    cases hh : E.halt s0.ui.cpu
    · cases hq : (before_step E s0).2
      · simp only [hh, hq, Bool.false_eq_true, if_false] at h
        have hc : ((before_step E s0).1.emit [Event.step]).ui.cpu = s0.ui.cpu :=
          before_step_cpu E s0
        rw [hc] at h
        cases hs : E.step s0.ui.cpu with
        | error m => rw [hs] at h; simp at h
        | ok c =>
          rw [hs] at h
          rw [show k + 1 + fuel = (k + fuel) + 1 by omega, start_ok E _ s0 c hh hq hs]
          exact ih _ h
      · simp [hh, hq] at h
    · simp [hh] at h

/-- Passes of the loop only append to the trace. -/
theorem after_cycles_out (E : Engine σ) (k : Nat) (s0 s : Session σ)
    (h : after_cycles E k s0 = some s) : ∃ new, s.out = s0.out ++ new := by
  have h1 := start_after_cycles E k 0 s0 s h
  obtain ⟨new, hnew⟩ := start_out E (k + 0) s0
  rw [h1] at hnew
  exact ⟨new, by simpa [start, Outcome.session] using hnew⟩

theorem run_io_n_lines (ops : List IoOp) (s : Session σ) :
    (run_io ops s).ui.n_lines = s.ui.n_lines + (io_newlines ops : Nat) + (io_reads ops : Nat) := by
  induction ops generalizing s with
  | nil => simp [run_io, io_newlines, io_reads]
  | cons op ops ih =>
    cases op with
    | print str =>
      rw [run_io, ih]
      simp only [print, Session.emit, count_newlines_eq, io_newlines, io_reads]
      push_cast
      ring
    | getline =>
      rw [run_io, ih]
      simp only [getline, io_newlines, io_reads]
      push_cast
      ring

theorem run_io_reset_position (ops : List IoOp) (s : Session σ) :
    (run_io ops s).ui.reset_position = s.ui.reset_position := by
  induction ops generalizing s with
  | nil => rfl
  | cons op ops ih =>
    cases op with
    | print str => rw [run_io, ih]; rfl
    | getline => rw [run_io, ih]; rfl

theorem found_hlt_iff {ι : Type} (get_code : ι → instruction_code) (program : List ι) :
    found_hlt get_code program = true ↔ ∃ x ∈ program, get_code x = instruction_code.hlt := by
  induction program with
  | nil => simp [found_hlt]
  | cons i rest ih =>
    rw [found_hlt]
    by_cases h : get_code i = instruction_code.hlt
    · simp [h]
    · simp [h, ih]

end Loop

/-! ## Lemmas on the stack panel -/

section Stack

theorem succ_mod_of_ne {k x : Nat} (hk : 0 < k) (h : (x + 1) % k ≠ 0) :
    (x + 1) % k = x % k + 1 := by
  have hlt := Nat.mod_lt x hk
  have hx := Nat.div_add_mod x k
  by_cases hc : x % k + 1 < k
  · have : x + 1 = x % k + 1 + k * (x / k) := by omega
    rw [this, Nat.add_mul_mod_self_left, Nat.mod_eq_of_lt hc]
  · exfalso
    apply h
    have : x + 1 = k * (x / k + 1) := by
      rw [Nat.mul_add, Nat.mul_one]; omega
    rw [this, Nat.mul_mod_right]

theorem succ_mod_of_eq {k x : Nat} (hk : 0 < k) (h : (x + 1) % k = 0) :
    x % k + 1 = k := by
  have hlt := Nat.mod_lt x hk
  have hx := Nat.div_add_mod x k
  by_contra hc
  have hc2 : x % k + 1 < k := by omega
  have : x + 1 = x % k + 1 + k * (x / k) := by omega
  rw [this, Nat.add_mul_mod_self_left, Nat.mod_eq_of_lt hc2] at h
  omega

theorem to_hex_ne_empty (b : Nat) : to_hex b ≠ "" := by
  intro h
  have := congrArg String.data h
  simp [to_hex] at this

theorem string_append_ne_empty {a : String} (b : String) (h : a ≠ "") : a ++ b ≠ "" := by
  intro hc
  apply h
  have h1 := congrArg String.data hc
  rw [String.data_append] at h1
  exact String.ext (List.append_eq_nil.1 h1).1

theorem hex_line_ne_empty {row : List Nat} (h : row ≠ []) : hex_line row ≠ "" := by
  match row, h with
  | [b], _ => exact to_hex_ne_empty b
  | b :: c :: rest, _ =>
    rw [hex_line, String.append_assoc]
    exact string_append_ne_empty _ (to_hex_ne_empty b)

theorem hex_line_snoc_reverse {g : List Nat} (b : Nat) (h : g ≠ []) :
    hex_line (g ++ [b]).reverse = to_hex b ++ (" " ++ hex_line g.reverse) := by
  have hr : g.reverse ≠ [] := by simpa using h
  rw [List.reverse_append, List.reverse_singleton, List.singleton_append]
  match hg : g.reverse, hr with
  | c :: rest, _ => rw [hex_line, String.append_assoc]

theorem groups_from_flatten (k : Nat) (g rest : List Nat) :
    (groups_from k g rest).flatten = g ++ rest := by
  induction rest generalizing g with
  | nil => simp [groups_from]
  | cons b rest ih =>
    rw [groups_from]
    split
    · simp [ih]
    · simp [ih]

theorem groups_from_length (k : Nat) (g rest : List Nat) :
    (groups_from k g rest).length = 1 + rest.length / k := by
  induction rest generalizing g with
  | nil => simp [groups_from]
  | cons b rest ih =>
    rw [groups_from, List.length_cons, Nat.succ_div]
    split
    · rename_i h
      simp [ih, Nat.dvd_iff_mod_eq_zero, h]
      omega
    · rename_i h
      simp [ih, Nat.dvd_iff_mod_eq_zero, h]

theorem groups_from_shape (k : Nat) (hk : 0 < k) (g rest : List Nat) :
    ∃ first others, groups_from k g rest = first :: others ∧
      first.length = g.length + rest.length % k ∧ ∀ x ∈ others, x.length = k := by
  induction rest generalizing g with
  | nil => exact ⟨g, [], by simp [groups_from], by simp, by simp⟩
  | cons b rest ih =>
    rw [groups_from]
    split
    · rename_i h
      obtain ⟨first, others, he, hl, ho⟩ := ih [b]
      refine ⟨g, first :: others, by rw [he], by simp [h], ?_⟩
      intro x hx
      rcases List.mem_cons.1 hx with hx | hx
      · subst hx
        rw [hl, List.length_singleton]
        have := succ_mod_of_eq hk h
        omega
      · exact ho x hx
    · rename_i h
      obtain ⟨first, others, he, hl, ho⟩ := ih (g ++ [b])
      refine ⟨first, others, he, ?_, ho⟩
      rw [hl, List.length_append, List.length_singleton, List.length_cons,
        succ_mod_of_ne hk h]
      omega

theorem stack_loop_push (k ii i : Nat) (cur : String) (lines : List String) (b : Nat)
    (rest : List Nat) (h1 : ii < i) (h2 : i % k = 0) :
    stack_loop k ii i cur lines (b :: rest) =
      stack_loop k ii (i + 1) (to_hex b) (lines ++ [cur]) rest := by
  rw [stack_loop]; simp [h1, h2]

theorem stack_loop_extend (k ii i : Nat) (cur : String) (lines : List String) (b : Nat)
    (rest : List Nat) (h1 : ii < i) (h2 : ¬ i % k = 0) :
    stack_loop k ii i cur lines (b :: rest) =
      stack_loop k ii (i + 1) (to_hex b ++ (" " ++ cur)) lines rest := by
  rw [stack_loop]; simp [h1, h2]

theorem stack_loop_first (k ii : Nat) (cur : String) (lines : List String) (b : Nat)
    (rest : List Nat) :
    stack_loop k ii ii cur lines (b :: rest) =
      stack_loop k ii (ii + 1) (to_hex b ++ cur) lines rest := by
  rw [stack_loop]; simp

/-- The loop of `render_stack`, once a first byte is in the current line, closes the groups
of `groups_from`. -/
theorem stack_loop_groups (k ii : Nat) (rest : List Nat) (i : Nat) (g : List Nat)
    (lines : List String) (hg : g ≠ []) (hi : ii < i) (hdvd : k ∣ i + rest.length) :
    (let r := stack_loop k ii i (hex_line g.reverse) lines rest
     if r.2 ≠ "" then r.1 ++ [r.2] else r.1) =
      lines ++ (groups_from k g rest).map (fun x => hex_line x.reverse) := by
  induction rest generalizing i g lines with
  | nil =>
    have hne : hex_line g.reverse ≠ "" := hex_line_ne_empty (by simpa using hg)
    simp [stack_loop, groups_from, hne]
  | cons b rest ih =>
    have hiff : i % k = 0 ↔ (rest.length + 1) % k = 0 := by
      rw [← Nat.dvd_iff_mod_eq_zero, ← Nat.dvd_iff_mod_eq_zero]
      rw [List.length_cons] at hdvd
      exact ⟨fun h => (Nat.dvd_add_iff_right h).2 hdvd, fun h => (Nat.dvd_add_iff_left h).2 hdvd⟩
    rw [groups_from]
    have hd2 : k ∣ i + 1 + rest.length := by
      rw [List.length_cons] at hdvd
      rw [Nat.add_assoc, Nat.add_comm 1]
      exact hdvd
    by_cases hc : (rest.length + 1) % k = 0
    · rw [stack_loop_push k ii i _ lines b rest hi (hiff.2 hc), if_pos hc]
      have := ih (i + 1) [b] (lines ++ [hex_line g.reverse]) (by simp) (by omega) hd2
      simp only [List.reverse_singleton, hex_line] at this
      rw [this]
      simp
    · rw [stack_loop_extend k ii i _ lines b rest hi (fun h => hc (hiff.1 h)), if_neg hc]
      have := ih (i + 1) (g ++ [b]) lines (by simp) (by omega) hd2
      rw [hex_line_snoc_reverse b hg] at this
      exact this

theorem stack_content_lines_eq (k : Nat) (hk : 0 < k) (stack : List Nat) :
    stack_content_lines k stack = (stack_groups k stack).map (fun x => hex_line x.reverse) := by
  cases stack with
  | nil => simp [stack_content_lines, stack_loop, stack_groups]
  | cons b rest =>
    unfold stack_content_lines
    simp only
    rw [stack_loop_first, String.append_empty]
    have hlt := Nat.mod_lt (b :: rest).length hk
    have hdm := Nat.div_add_mod (b :: rest).length k
    have hdvd : k ∣ k - (b :: rest).length % k + 1 + rest.length := by
      refine ⟨(b :: rest).length / k + 1, ?_⟩
      rw [Nat.mul_add, Nat.mul_one]
      simp only [List.length_cons] at hlt hdm ⊢
      omega
    have := stack_loop_groups k (k - (b :: rest).length % k) rest
      (k - (b :: rest).length % k + 1) [b] [] (by simp) (by omega) hdvd
    simp only [List.reverse_singleton, hex_line, List.nil_append] at this
    rw [stack_groups]
    exact this

theorem stack_groups_length (k : Nat) (hk : 0 < k) (stack : List Nat) :
    (stack_groups k stack).length = (stack.length + k - 1) / k := by
  cases stack with
  | nil =>
    simp only [stack_groups, List.length_nil, Nat.zero_add]
    exact (Nat.div_eq_of_lt (by omega)).symm
  | cons b rest =>
    rw [stack_groups, groups_from_length, List.length_cons,
      show rest.length + 1 + k - 1 = rest.length + k by omega, Nat.add_div_right _ hk]
    omega

theorem stack_content_lines_ne_empty (k : Nat) (hk : 0 < k) (stack : List Nat) :
    ∀ l ∈ stack_content_lines k stack, l ≠ "" := by
  intro l hl
  rw [stack_content_lines_eq k hk] at hl
  obtain ⟨g, hg, rfl⟩ := List.mem_map.1 hl
  apply hex_line_ne_empty
  cases stack with
  | nil => simp [stack_groups] at hg
  | cons b rest =>
    rw [stack_groups] at hg
    obtain ⟨first, others, he, hl1, ho⟩ := groups_from_shape k hk [b] rest
    rw [he] at hg
    intro hc
    have hlen : g.length = 0 := by simpa using hc
    rcases List.mem_cons.1 hg with h | h
    · subst h
      rw [hl1, List.length_singleton] at hlen
      omega
    · have := ho g h
      omega

end Stack

/-! ## Claims -/

section Claims

variable {σ : Type}

/-- C1: in non-interactive mode, when the halt flag first becomes true after exactly `n`
successful steps (engine states `cs 0`, ..., `cs n`), `start` returns; up to terminal output its
effects are exactly `n` repetitions of (render the frame of `cs i`, sleep, step), so `n` frames
are rendered, each right before a step, `n` steps are made, and nothing is rendered after the
last step: the halted state `cs n` is the engine state at return and has no frame. -/
theorem start_timed_run (E : Engine σ) (cs : Nat → σ) (n fuel : Nat) (s : Session σ)
    (hmode : s.ui.interactive = false) (h0 : s.ui.cpu = cs 0)
    (hrun : ∀ i, i < n → E.halt (cs i) = false ∧ E.step (cs i) = .ok (cs (i + 1)))
    (hhalt : E.halt (cs n) = true) :
    ∃ s' new, start E (n + 1 + fuel) s = .returned s' ∧ s'.ui.cpu = cs n ∧
      s'.out = s.out ++ new ∧
      control new = (List.range n).flatMap
        (fun i => [Event.frame (cs i), Event.sleep (E.wait_time s.ui.speed), Event.step]) := by
  induction n generalizing s cs with
  | zero =>
    refine ⟨s, [], ?_, h0, by simp, by simp [control]⟩
    rw [show 0 + 1 + fuel = fuel + 1 by omega]
    exact start_halted E fuel s (by rw [h0]; exact hhalt)
  | succ n ih =>
    obtain ⟨hh0, hs0⟩ := hrun 0 (by omega)
    rw [← h0] at hh0 hs0
    have hq : (before_step E s).2 = false := by rw [before_step_timed E s hmode]
    have hstep := start_ok E (n + 1 + fuel) s (cs 1) hh0 hq hs0
    have hb := before_step_timed E s hmode
    obtain ⟨s', new, hst, hcpu, hout, hctl⟩ := ih (fun i => cs (i + 1))
      (((before_step E s).1.emit [Event.step]).set_cpu (cs 1))
      (by rw [hb]; simp [Session.emit, Session.set_cpu, hmode])
      (by simp [Session.emit, Session.set_cpu])
      (fun i hi => hrun (i + 1) (by omega)) hhalt
    rw [hb] at hout hctl
    refine ⟨s', render_events E s.ui ++ [Event.sleep (E.wait_time s.ui.speed)]
      ++ [Event.step] ++ new, ?_, hcpu, ?_, ?_⟩
    · rw [show n + 1 + 1 + fuel = (n + 1 + fuel) + 1 by omega, hstep]
      exact hst
    · rw [hout]; simp [Session.emit, Session.set_cpu, List.append_assoc]
    · rw [control_append, control_append, control_append, control_render_events, hctl,
        List.range_succ_eq_map, List.flatMap_cons, List.flatMap_map, h0]
      simp [control, Event.is_output, Function.comp_def, Session.emit, Session.set_cpu]

/-- Witness of C1 on the test engine, which halts after two steps from 0. -/
theorem start_timed_run_witness :
    ∃ s' new, start demoEngine (2 + 1 + 0) (demoSession false 0 []) = .returned s' ∧
      s'.ui.cpu = 2 ∧ s'.out = (demoSession false 0 []).out ++ new ∧
      control new = (List.range 2).flatMap
        (fun i => [Event.frame i, Event.sleep (demoEngine.wait_time 60), Event.step]) :=
  start_timed_run demoEngine (fun i => i) 2 0 (demoSession false 0 []) rfl rfl
    (by intro i hi; interval_cases i <;> simp [demoEngine]) (by decide)

/-- C2: in interactive mode, when the halt flag is false and the line read at the prompt is
"quit", "q" or "exit", `start` returns right after the render and the prompt of that pass: its
effects are the render, the prompt and the read, there is no call of `cpu.step()`, and the engine
state at return is the state whose frame was rendered. -/
theorem start_quit_keyword (E : Engine σ) (fuel : Nat) (s : Session σ) (line : String)
    (rest : List String)
    (hmode : s.ui.interactive = true) (hhalt : E.halt s.ui.cpu = false)
    (hin : s.stdin = line :: rest)
    (hline : line = "quit" ∨ line = "q" ∨ line = "exit") :
    ∃ s', start E (fuel + 1) s = .returned s' ∧ s'.ui.cpu = s.ui.cpu ∧
      s'.out = s.out ++ (render_events E s.ui ++ [Event.cout PROMPT, Event.getline line]) ∧
      control (render_events E s.ui ++ [Event.cout PROMPT, Event.getline line])
        = [Event.frame s.ui.cpu, Event.getline line] ∧
      Event.step ∉ render_events E s.ui ++ [Event.cout PROMPT, Event.getline line] := by
  have hb := before_step_interactive E s hmode
  rw [hin] at hb
  simp only [List.headD_cons, List.tail_cons] at hb
  have hq : is_quit line = true := (is_quit_iff line).2 (by tauto)
  have hctl : control (render_events E s.ui ++ [Event.cout PROMPT, Event.getline line])
      = [Event.frame s.ui.cpu, Event.getline line] := by
    rw [control_append, control_render_events]
    simp [control, Event.is_output]
  refine ⟨(before_step E s).1, start_break E fuel s hhalt (by rw [hb]; exact hq),
    before_step_cpu E s, by rw [hb], hctl, ?_⟩
  intro hmem
  have := (@mem_control σ Event.step _ rfl).2 hmem
  rw [hctl] at this
  simp at this

/-- Witness of C2 on the test engine, with "quit" typed at the first prompt. -/
theorem start_quit_keyword_witness :
    ∃ s', start demoEngine (0 + 1) (demoSession true 0 ["quit", "x"]) = .returned s' ∧
      s'.ui.cpu = (demoSession true 0 ["quit", "x"]).ui.cpu ∧
      s'.out = (demoSession true 0 ["quit", "x"]).out ++
        (render_events demoEngine (demoSession true 0 ["quit", "x"]).ui ++
          [Event.cout PROMPT, Event.getline "quit"]) ∧
      control (render_events demoEngine (demoSession true 0 ["quit", "x"]).ui ++
          [Event.cout PROMPT, Event.getline "quit"])
        = [Event.frame (demoSession true 0 ["quit", "x"]).ui.cpu, Event.getline "quit"] ∧
      Event.step ∉ render_events demoEngine (demoSession true 0 ["quit", "x"]).ui ++
          [Event.cout PROMPT, Event.getline "quit"] :=
  start_quit_keyword demoEngine 0 (demoSession true 0 ["quit", "x"]) "quit" ["x"] rfl
    (by decide) rfl (Or.inl rfl)

/-- C3: when, after any number `k` of complete passes of the loop, `cpu.step()` throws the
diagnostic `m`, `start` ends the process with `exit(0)`: the trace is the trace up to that call of
`cpu.step()` followed by the diagnostic, a newline and the exit, and nothing else (no render,
cleanup, prompt or step) follows the faulting step. -/
theorem start_fault_exit (E : Engine σ) (k fuel : Nat) (s0 s : Session σ) (m : String)
    (hreach : after_cycles E k s0 = some s)
    (hhalt : E.halt s.ui.cpu = false) (hq : (before_step E s).2 = false)
    (hfault : E.step s.ui.cpu = .error m) :
    start E (k + (fuel + 1)) s0 =
        .exited 0 ((before_step E s).1.emit
          [Event.step, Event.cout m, Event.cout "\n", Event.exit 0]) ∧
      ∃ pre, ((before_step E s).1.emit
          [Event.step, Event.cout m, Event.cout "\n", Event.exit 0]).out =
        s0.out ++ pre ++ [Event.step, Event.cout m, Event.cout "\n", Event.exit 0] := by
  refine ⟨?_, ?_⟩
  · rw [start_after_cycles E k (fuel + 1) s0 s hreach]
    exact start_fault E fuel s m hhalt hq hfault
  · obtain ⟨new1, h1⟩ := after_cycles_out E k s0 s hreach
    obtain ⟨new2, h2⟩ := before_step_out E s
    exact ⟨new1 ++ new2, by simp [Session.emit, h2, h1]⟩

/-- Witness of C3 on the test engine: started at 6 it steps once and faults at 7. -/
theorem start_fault_exit_witness :
    start demoEngine (1 + (0 + 1)) (demoSession false 6 []) =
        .exited 0 ((before_step demoEngine demoFaulting).1.emit
          [Event.step, Event.cout "fault", Event.cout "\n", Event.exit 0]) ∧
      ∃ pre, ((before_step demoEngine demoFaulting).1.emit
          [Event.step, Event.cout "fault", Event.cout "\n", Event.exit 0]).out =
        (demoSession false 6 []).out ++ pre ++
          [Event.step, Event.cout "fault", Event.cout "\n", Event.exit 0] :=
  start_fault_exit demoEngine 1 0 (demoSession false 6 []) demoFaulting "fault"
    rfl (by decide) rfl rfl

/-- C4, as stated, fails: the line " q " is the keyword "q" once trimmed, yet the quit test
rejects it and the loop goes on to call `cpu.step()`. -/
theorem quit_test_untrimmed :
    trimmed " q " = "q" ∧ demoEngine.halt 0 = false ∧ is_quit " q " = false ∧
      control (start demoEngine 1 (demoSession true 0 [" q "])).session.out =
        [Event.frame 0, Event.getline " q ", Event.step] := by
  decide

/-- C4, amended: in interactive mode the quit test is applied to the line as read. When the
line is exactly "q", "quit" or "exit" the loop exits without stepping; for every other line,
surrounding whitespace included, the pass goes on and calls `cpu.step()`. -/
theorem quit_test_exact (E : Engine σ) (fuel : Nat) (s : Session σ) (line : String)
    (rest : List String)
    (hmode : s.ui.interactive = true) (hhalt : E.halt s.ui.cpu = false)
    (hin : s.stdin = line :: rest) :
    ((line = "q" ∨ line = "quit" ∨ line = "exit") →
      ∃ s', start E (fuel + 1) s = .returned s' ∧ s'.ui.cpu = s.ui.cpu ∧
        s'.out = s.out ++ (render_events E s.ui ++ [Event.cout PROMPT, Event.getline line])) ∧
    (¬ (line = "q" ∨ line = "quit" ∨ line = "exit") →
      ∃ new, (start E (fuel + 1) s).session.out =
        s.out ++ (render_events E s.ui ++ [Event.cout PROMPT, Event.getline line])
          ++ [Event.step] ++ new) := by
  have hb := before_step_interactive E s hmode
  rw [hin] at hb
  simp only [List.headD_cons, List.tail_cons] at hb
  constructor
  · intro hline
    have hq : is_quit line = true := (is_quit_iff line).2 hline
    exact ⟨(before_step E s).1, start_break E fuel s hhalt (by rw [hb]; exact hq),
      before_step_cpu E s, by rw [hb]⟩
  · intro hline
    have hq : (before_step E s).2 = false := by
      rw [hb]
      cases h : is_quit line
      · rfl
      · exact absurd ((is_quit_iff line).1 h) hline
    cases hs : E.step s.ui.cpu with
    | error m =>
      rw [start_fault E fuel s m hhalt hq hs, hb]
      exact ⟨[Event.cout m, Event.cout "\n", Event.exit 0],
        by simp [Outcome.session, Session.emit]⟩
    | ok c =>
      rw [start_ok E fuel s c hhalt hq hs]
      obtain ⟨new, hnew⟩ := start_out E fuel (((before_step E s).1.emit [Event.step]).set_cpu c)
      rw [hb] at hnew
      rw [hb]
      exact ⟨new, by rw [hnew]; simp [Session.emit, Session.set_cpu]⟩

/-- Witness of the amended C4: "q" quits, " q " steps. -/
theorem quit_test_exact_witness :
    (∃ s', start demoEngine (0 + 1) (demoSession true 0 ["q"]) = .returned s' ∧
        s'.ui.cpu = (demoSession true 0 ["q"]).ui.cpu ∧
        s'.out = (demoSession true 0 ["q"]).out ++
          (render_events demoEngine (demoSession true 0 ["q"]).ui ++
            [Event.cout PROMPT, Event.getline "q"])) ∧
    (∃ new, (start demoEngine (0 + 1) (demoSession true 0 [" q "])).session.out =
        (demoSession true 0 [" q "]).out ++
          (render_events demoEngine (demoSession true 0 [" q "]).ui ++
            [Event.cout PROMPT, Event.getline " q "]) ++ [Event.step] ++ new) :=
  ⟨(quit_test_exact demoEngine 0 (demoSession true 0 ["q"]) "q" [] rfl (by decide) rfl).1
      (Or.inl rfl),
   (quit_test_exact demoEngine 0 (demoSession true 0 [" q "]) " q " [] rfl (by decide) rfl).2
      (by decide)⟩

/-- C5: the constructor prints the missing-halt advisory exactly once when no instruction of the
assembled program has the halt opcode, and prints nothing when one has; in both cases the program
is loaded into the engine and the constructor renders no frame; everything `start` does comes
after the constructor's output, and when the loaded engine is not halted the loop runs: its
first effect is the frame of the loaded state. -/
theorem constructor_advisory {ι : Type} (T : Toolchain ι σ) (E : Engine σ) (c : String)
    (i : Bool) (sp : Int) (rp0 : String) (n0 : Int) (stdin : List String) (fuel : Nat) :
    ((∀ x ∈ T.assemble c, T.get_code x ≠ instruction_code.hlt) →
      (construct T c i sp rp0 n0 stdin).out = [Event.cout WARNING]) ∧
    ((∃ x ∈ T.assemble c, T.get_code x = instruction_code.hlt) →
      (construct T c i sp rp0 n0 stdin).out = []) ∧
    (construct T c i sp rp0 n0 stdin).ui.cpu = T.load (T.assemble c) T.fresh ∧
    (∀ st, Event.frame st ∉ (construct T c i sp rp0 n0 stdin).out) ∧
    (∃ rest, (start E fuel (construct T c i sp rp0 n0 stdin)).session.out =
      (construct T c i sp rp0 n0 stdin).out ++ rest) ∧
    (E.halt (T.load (T.assemble c) T.fresh) = false →
      ∃ rest, (start E (fuel + 1) (construct T c i sp rp0 n0 stdin)).session.out =
        (construct T c i sp rp0 n0 stdin).out ++
          Event.frame (T.load (T.assemble c) T.fresh) :: rest) := by
  have hiff := found_hlt_iff T.get_code (T.assemble c)
  refine ⟨?_, ?_, rfl, ?_, start_out E fuel _, ?_⟩
  · intro h
    have hf : found_hlt T.get_code (T.assemble c) = false := by
      cases hc : found_hlt T.get_code (T.assemble c)
      · rfl
      · obtain ⟨x, hx, hx2⟩ := hiff.1 hc
        exact absurd hx2 (h x hx)
    simp [construct, hf]
  · intro h
    simp [construct, hiff.2 h]
  · intro st
    simp only [construct]
    split <;> simp
  · intro hh
    exact start_first_frame E fuel (construct T c i sp rp0 n0 stdin) hh

/-- Witness of C5: a program without a halt gets the advisory and the loop then renders the
loaded state; a program with a halt gets no advisory. -/
theorem constructor_advisory_witness :
    (construct (demoToolchain [.other 1, .other 2]) "" false 60 "" 0 []).out
        = [(Event.cout WARNING : Event Nat)] ∧
    (construct (demoToolchain [.other 1, .hlt]) "" false 60 "" 0 []).out
        = ([] : List (Event Nat)) ∧
    (∃ rest, (start demoEngine (0 + 1)
        (construct (demoToolchain [.other 1, .other 2]) "" false 60 "" 0 [])).session.out =
      (construct (demoToolchain [.other 1, .other 2]) "" false 60 "" 0 []).out ++
        Event.frame ((demoToolchain [.other 1, .other 2]).load
          ((demoToolchain [.other 1, .other 2]).assemble "")
          (demoToolchain [.other 1, .other 2]).fresh) :: rest) :=
  ⟨(constructor_advisory (demoToolchain [.other 1, .other 2]) demoEngine "" false 60 "" 0 [] 0).1
      (by decide),
   (constructor_advisory (demoToolchain [.other 1, .hlt]) demoEngine "" false 60 "" 0 [] 0).2.1
      (by decide),
   (constructor_advisory (demoToolchain [.other 1, .other 2]) demoEngine "" false 60 "" 0 []
      0).2.2.2.2.2 (by decide)⟩

/-- C6: the line count is 0 right after every cleanup pass; a render writes, in this order,
the stored home offset, the erase sequence and the new frame text, and then stores the new
frame's reset position; so after any `print` and `getline` calls (and an engine move), the next
render starts by writing the home offset that the previous render recorded. -/
theorem render_protocol (E : Engine σ) (s : Session σ) (ops : List IoOp) (c : σ) :
    (cleanup s).ui.n_lines = 0 ∧
    (render E s).ui.n_lines = 0 ∧
    (render E s).out = s.out ++ ([Event.frame s.ui.cpu, Event.cout s.ui.reset_position]
      ++ erase_events s.ui.n_lines ++ [Event.cout (E.screenText s.ui.cpu), Event.flush]) ∧
    (render E s).ui.reset_position = E.screenReset s.ui.cpu ∧
    (render E ((run_io ops (render E s)).set_cpu c)).out =
      ((run_io ops (render E s)).set_cpu c).out ++
        ([Event.frame c, Event.cout (E.screenReset s.ui.cpu)]
          ++ erase_events (run_io ops (render E s)).ui.n_lines
          ++ [Event.cout (E.screenText c), Event.flush]) ∧
    (render E ((run_io ops (render E s)).set_cpu c)).ui.reset_position = E.screenReset c := by
  refine ⟨rfl, ?_, ?_, ?_, ?_, ?_⟩
  · rw [render_eq]
  · rw [render_eq]; simp [render_events, cleanup_events]
  · rw [render_eq]
  · have h := run_io_reset_position ops (render E s)
    rw [render_eq E ((run_io ops (render E s)).set_cpu c)]
    simp only [Session.set_cpu, render_events, cleanup_events, h]
    rw [render_eq]
    simp
  · rw [render_eq E ((run_io ops (render E s)).set_cpu c)]
    simp [Session.set_cpu]

/-- C7: `cleanup` first writes the stored home offset; if the line count `n` is positive it
then clears the current line once and writes `n + 1` times (cursor up, clear line); if `n` is 0
it writes nothing more. -/
theorem cleanup_writes (s : Session σ) :
    (0 < s.ui.n_lines →
      (cleanup s).out = s.out ++ ([Event.cout s.ui.reset_position]
        ++ [Event.cout "\r", Event.cout "\x1b[2K"]
        ++ (List.replicate (s.ui.n_lines + 1).toNat
              [Event.cout "\x1b[1A", Event.cout "\x1b[2K"]).flatten)) ∧
    (s.ui.n_lines = 0 → (cleanup s).out = s.out ++ [Event.cout s.ui.reset_position]) := by
  constructor
  · intro h
    have h2 : s.ui.n_lines ≠ 0 := by omega
    simp [cleanup, Session.emit, cleanup_events, erase_events, h2, cleanup_loop_eq, up_and_clear]
  · intro h
    simp [cleanup, Session.emit, cleanup_events, erase_events, h]

/-- Witness of C7 at line counts 2 and 0. -/
theorem cleanup_writes_witness :
    (cleanup ({ demoSession true 0 [] with
        ui := { (demoSession true 0 []).ui with n_lines := 2 } })).out =
      [Event.cout "", Event.cout "\r", Event.cout "\x1b[2K",
       Event.cout "\x1b[1A", Event.cout "\x1b[2K", Event.cout "\x1b[1A", Event.cout "\x1b[2K",
       Event.cout "\x1b[1A", Event.cout "\x1b[2K"] ∧
    (cleanup (demoSession true 0 [])).out = [Event.cout ""] :=
  ⟨(cleanup_writes ({ demoSession true 0 [] with
        ui := { (demoSession true 0 []).ui with n_lines := 2 } })).1 (by decide),
   (cleanup_writes (demoSession true 0 [])).2 rfl⟩

/-- C8: `print(s)` writes `s` unchanged and adds to the line count the number of newline
characters of `s`; each `getline` call adds 1; so after a cleanup and any `print` and `getline`
calls the line count is the number of newlines printed plus the number of lines read, which is 2
after the prompt and the read of one interactive pass. -/
theorem line_count_bookkeeping (E : Engine σ) (s : Session σ) (str : String)
    (ops : List IoOp) :
    (print str s).out = s.out ++ [Event.cout str] ∧
    (print str s).ui.n_lines = s.ui.n_lines + (str.data.count '\n' : Nat) ∧
    (getline s).2.ui.n_lines = s.ui.n_lines + 1 ∧
    (run_io ops (cleanup s)).ui.n_lines = (io_newlines ops : Nat) + (io_reads ops : Nat) ∧
    (getline (print PROMPT (render E s))).2.ui.n_lines = 2 := by
  refine ⟨rfl, ?_, rfl, ?_, ?_⟩
  · simp [print, Session.emit, count_newlines_eq]
  · rw [run_io_n_lines]
    simp [cleanup]
  · simp [getline, print, Session.emit, render_eq, prompt_newlines]

/-- C9: when the bytes-per-line constant is positive and the height constant is at least the
number of lines of 120 bytes, then for every stack pointer whose depth
`stack_bottom - stack_top` is between 0 and the default stack size, the body of the stack panel
has exactly `STACK_HEIGHT` text lines: first the blank padding lines, then the (non-blank)
content lines. -/
theorem render_stack_height (K : StackConstants) (ram : Ram) (ss sp : Nat)
    (hk : 0 < K.STACK_BYTES_PER_LINE)
    (hfit : (30 * 4 + K.STACK_BYTES_PER_LINE - 1) / K.STACK_BYTES_PER_LINE ≤ K.STACK_HEIGHT)
    (hram : ∀ a n, (ram.get_data a n).length = n.toNat)
    (hdepth : 0 ≤ stack_bottom K ss - stack_top ss sp ∧
      stack_bottom K ss - stack_top ss sp ≤ K.LOADER_DEFAULT_STACK_SIZE) :
    (stack_lines K (read_stack K ram ss sp)).length = K.STACK_HEIGHT ∧
    stack_lines K (read_stack K ram ss sp) =
      List.replicate (K.STACK_HEIGHT -
          (stack_content_lines K.STACK_BYTES_PER_LINE (read_stack K ram ss sp)).length)
        (Element.text "") ++
      (stack_content_lines K.STACK_BYTES_PER_LINE (read_stack K ram ss sp)).map Element.text ∧
    (∀ l ∈ stack_content_lines K.STACK_BYTES_PER_LINE (read_stack K ram ss sp), l ≠ "") := by
  have hn : (read_stack K ram ss sp).length ≤ 30 * 4 := by
    rw [read_stack, hram]
    omega
  have hlen : (stack_content_lines K.STACK_BYTES_PER_LINE (read_stack K ram ss sp)).length
      ≤ K.STACK_HEIGHT := by
    rw [stack_content_lines_eq _ hk, List.length_map, stack_groups_length _ hk]
    exact le_trans (Nat.div_le_div_right (by omega)) hfit
  have heq : stack_lines K (read_stack K ram ss sp) =
      List.replicate (K.STACK_HEIGHT -
          (stack_content_lines K.STACK_BYTES_PER_LINE (read_stack K ram ss sp)).length)
        (Element.text "") ++
      (stack_content_lines K.STACK_BYTES_PER_LINE (read_stack K ram ss sp)).map Element.text := by
    unfold stack_lines
    simp only
    congr 2
    omega
  refine ⟨?_, heq, stack_content_lines_ne_empty _ hk _⟩
  rw [heq, List.length_append, List.length_replicate, List.length_map]
  omega

/-- Witness of C9: with 30 lines of 4 bytes and 6 bytes on the stack, the panel has 30 lines,
28 of them blank. -/
theorem render_stack_height_witness :
    (0 ≤ stack_bottom demoConstants 4096 - stack_top 4096 1018 ∧
      stack_bottom demoConstants 4096 - stack_top 4096 1018
        ≤ demoConstants.LOADER_DEFAULT_STACK_SIZE) ∧
    (stack_lines demoConstants (read_stack demoConstants demoRam 4096 1018)).length = 30 ∧
    (stack_content_lines 4 (read_stack demoConstants demoRam 4096 1018)).length = 2 :=
  ⟨by decide,
   (render_stack_height demoConstants demoRam 4096 1018 (by decide) (by decide)
      (fun a n => by simp [demoRam]) (by decide)).1,
   by decide⟩

/-- C10: for `k = STACK_BYTES_PER_LINE > 0` and bytes `b` of length `n`, the content lines of
the stack panel are the hex rows (pairs separated by single spaces) of `ceil(n / k)` rows of
bytes; the first row has `n mod k` bytes when that is not 0, every other row has `k` bytes (all
rows when `n mod k = 0`, and the last row whenever `n >= k`); and reversing each row and
concatenating the rows from top to bottom gives `b`, so a row shows its bytes in reverse read
order. -/
theorem stack_content_grouping (k : Nat) (hk : 0 < k) (b : List Nat) :
    ∃ rows : List (List Nat),
      stack_content_lines k b = rows.map hex_line ∧
      (rows.map List.reverse).flatten = b ∧
      rows.length = (b.length + k - 1) / k ∧
      (b.length % k ≠ 0 →
        ∃ first others, rows = first :: others ∧ first.length = b.length % k) ∧
      (∀ row ∈ rows.tail, row.length = k) ∧
      (b.length % k = 0 → ∀ row ∈ rows, row.length = k) ∧
      (k ≤ b.length → ∃ row, rows.getLast? = some row ∧ row.length = k) := by
  refine ⟨(stack_groups k b).map List.reverse, ?_, ?_, ?_, ?_⟩
  · rw [stack_content_lines_eq k hk, List.map_map]; rfl
  · rw [List.map_map]
    have : (List.reverse ∘ List.reverse : List Nat → List Nat) = id := by
      funext x; simp
    rw [this, List.map_id]
    cases b with
    | nil => rfl
    | cons x rest => rw [stack_groups, groups_from_flatten]; rfl
  · rw [List.length_map, stack_groups_length k hk]
  · cases b with
    | nil =>
      refine ⟨by simp, by simp [stack_groups], by simp [stack_groups], ?_⟩
      intro h; simp at h; omega
    | cons x rest =>
      obtain ⟨first, others, he, hl, ho⟩ := groups_from_shape k hk [x] rest
      have hcount := groups_from_length k [x] rest
      rw [he] at hcount
      simp only [List.length_cons] at hcount
      rw [stack_groups, he]
      simp only [List.map_cons, List.tail_cons, List.length_singleton] at hl ⊢
      simp only [List.length_cons] at *
      have htail : ∀ row ∈ List.map List.reverse others, row.length = k := by
        intro row hrow
        obtain ⟨g, hg, rfl⟩ := List.mem_map.1 hrow
        rw [List.length_reverse]; exact ho g hg
      refine ⟨?_, htail, ?_, ?_⟩
      · intro hne
        exact ⟨first.reverse, others.map List.reverse, rfl, by
          rw [List.length_reverse, hl, succ_mod_of_ne hk hne]; omega⟩
      · intro h0 row hrow
        rcases List.mem_cons.1 hrow with h | h
        · subst h
          rw [List.length_reverse, hl]
          have := succ_mod_of_eq hk h0
          omega
        · exact htail row h
      · intro hle
        by_cases hoth : others = []
        · subst hoth
          refine ⟨first.reverse, by simp, ?_⟩
          simp only [List.length_nil] at hcount
          have hdz : rest.length / k = 0 := by omega
          have hlt : rest.length < k := (Nat.div_eq_zero_iff hk).1 hdz
          rw [List.length_reverse, hl, Nat.mod_eq_of_lt hlt]
          omega
        · have hne : List.map List.reverse others ≠ [] := by simpa using hoth
          refine ⟨(List.map List.reverse others).getLast hne, ?_,
            htail _ (List.getLast_mem hne)⟩
          rw [List.getLast?_eq_getLast _ (by simp), List.getLast_cons hne]

/-- Witness of C10: six bytes in lines of four give a first line of two and a full line. -/
theorem stack_content_grouping_witness :
    stack_content_lines 4 [1, 2, 3, 4, 5, 6] = ["02 01", "06 05 04 03"] ∧
    ∃ rows : List (List Nat),
      stack_content_lines 4 [1, 2, 3, 4, 5, 6] = rows.map hex_line ∧
      (rows.map List.reverse).flatten = [1, 2, 3, 4, 5, 6] ∧
      rows.length = ([1, 2, 3, 4, 5, 6].length + 4 - 1) / 4 ∧
      ([1, 2, 3, 4, 5, 6].length % 4 ≠ 0 →
        ∃ first others, rows = first :: others ∧ first.length = [1, 2, 3, 4, 5, 6].length % 4) ∧
      (∀ row ∈ rows.tail, row.length = 4) ∧
      ([1, 2, 3, 4, 5, 6].length % 4 = 0 → ∀ row ∈ rows, row.length = 4) ∧
      (4 ≤ [1, 2, 3, 4, 5, 6].length → ∃ row, rows.getLast? = some row ∧ row.length = 4) :=
  ⟨by decide, stack_content_grouping 4 (by decide) [1, 2, 3, 4, 5, 6]⟩

end Claims

/-! ## Lemmas on the rows of the panels -/

section Rows

variable {α : Type}

theorem rows_from_flatten (m j : Nat) (g rest : List α) :
    (rows_from m j g rest).flatten = g ++ rest := by
  induction rest generalizing j g with
  | nil => simp [rows_from]
  | cons b rest ih =>
    rw [rows_from]
    split
    · simp [ih]
    · simp [ih]

theorem rows_from_length (m j : Nat) (g rest : List α) :
    (rows_from m j g rest).length + j / m = 1 + (j + rest.length) / m := by
  induction rest generalizing j g with
  | nil => simp [rows_from]
  | cons b rest ih =>
    rw [rows_from]
    have hs := Nat.succ_div j m
    simp only [Nat.succ_eq_add_one, Nat.dvd_iff_mod_eq_zero] at hs
    split
    · rename_i h
      have := ih (j + 1) [b]
      rw [if_pos h] at hs
      simp only [List.length_cons]
      rw [show j + (rest.length + 1) = j + 1 + rest.length by omega]
      omega
    · rename_i h
      have := ih (j + 1) (g ++ [b])
      rw [if_neg h] at hs
      simp only [List.length_cons]
      rw [show j + (rest.length + 1) = j + 1 + rest.length by omega]
      omega

/-- The rows closed by `rows_from` are full; the last one holds what is left. -/
theorem rows_from_shape (m : Nat) (hm : 0 < m) (j : Nat) (g rest : List α)
    (hg : g.length = j % m + 1) :
    ∃ init last, rows_from m j g rest = init ++ [last] ∧
      (∀ row ∈ init, row.length = m) ∧ last.length = (j + rest.length) % m + 1 := by
  induction rest generalizing j g with
  | nil => exact ⟨[], g, by simp [rows_from], by simp, by simpa using hg⟩
  | cons b rest ih =>
    rw [rows_from]
    split
    · rename_i h
      obtain ⟨init, last, he, hi, hl⟩ := ih (j + 1) [b] (by simp [h])
      refine ⟨g :: init, last, by rw [he]; rfl, ?_, ?_⟩
      · intro row hrow
        rcases List.mem_cons.1 hrow with hr | hr
        · subst hr
          rw [hg]
          exact succ_mod_of_eq hm h
        · exact hi row hr
      · rw [hl, List.length_cons, show j + (rest.length + 1) = j + 1 + rest.length by omega]
    · rename_i h
      obtain ⟨init, last, he, hi, hl⟩ := ih (j + 1) (g ++ [b])
        (by rw [List.length_append, List.length_singleton, hg, succ_mod_of_ne hm h])
      refine ⟨init, last, he, hi, ?_⟩
      rw [hl, List.length_cons, show j + (rest.length + 1) = j + 1 + rest.length by omega]

theorem rows_of_flatten (m : Nat) (xs : List α) : (rows_of m xs).flatten = xs := by
  cases xs with
  | nil => rfl
  | cons b rest => rw [rows_of, rows_from_flatten]; rfl

theorem rows_of_length (m : Nat) (hm : 0 < m) (xs : List α) :
    (rows_of m xs).length = (xs.length + m - 1) / m := by
  cases xs with
  | nil =>
    simp only [rows_of, List.length_nil, Nat.zero_add]
    exact (Nat.div_eq_of_lt (by omega)).symm
  | cons b rest =>
    have h := rows_from_length m 0 [b] rest
    rw [Nat.zero_div, Nat.zero_add, Nat.add_zero] at h
    rw [rows_of, h, List.length_cons,
      show rest.length + 1 + m - 1 = rest.length + m by omega, Nat.add_div_right _ hm]
    omega

/-- The rows of a non-empty list: full rows, then a last row with the cells that are left. -/
theorem rows_of_shape (m : Nat) (hm : 0 < m) (b : α) (rest : List α) :
    ∃ init last, rows_of m (b :: rest) = init ++ [last] ∧
      (∀ row ∈ init, row.length = m) ∧ last.length = rest.length % m + 1 ∧
      last.length = (b :: rest).length - m * ((rows_of m (b :: rest)).length - 1) := by
  obtain ⟨init, last, he, hi, hl⟩ := rows_from_shape m hm 0 [b] rest
    (by simp [Nat.zero_mod])
  rw [Nat.zero_add] at hl
  refine ⟨init, last, he, hi, hl, ?_⟩
  have h := rows_from_length m 0 [b] rest
  rw [Nat.zero_div, Nat.zero_add, Nat.add_zero] at h
  rw [rows_of, h, hl, List.length_cons]
  have hdm := Nat.div_add_mod rest.length m
  rw [Nat.add_sub_cancel_left]
  generalize rest.length % m = r at hdm ⊢
  generalize m * (rest.length / m) = c at hdm ⊢
  omega

end Rows

/-! ## Lemmas on the data-segment panel -/

section Data

theorem hex_line_snoc {g : List Nat} (b : Nat) (h : g ≠ []) :
    hex_line (g ++ [b]) = hex_line g ++ " " ++ to_hex b := by
  induction g with
  | nil => exact absurd rfl h
  | cons a r ih =>
    cases r with
    | nil => simp [hex_line]
    | cons c r =>
      have := ih (by simp)
      rw [List.cons_append, List.cons_append, hex_line, ← List.cons_append, this, hex_line]
      simp only [String.append_assoc]

theorem data_loop_push (m i : Nat) (cur : String) (lines : List String) (b : Nat)
    (rest : List Nat) (h1 : 0 < i) (h2 : i % m = 0) :
    data_loop m i cur lines (b :: rest) =
      data_loop m (i + 1) (to_hex b) (lines ++ [cur]) rest := by
  rw [data_loop]; simp [h1, h2]

theorem data_loop_extend (m i : Nat) (cur : String) (lines : List String) (b : Nat)
    (rest : List Nat) (h1 : 0 < i) (h2 : ¬ i % m = 0) :
    data_loop m i cur lines (b :: rest) =
      data_loop m (i + 1) (cur ++ " " ++ to_hex b) lines rest := by
  rw [data_loop]
  have h3 : i ≠ 0 := by omega
  simp [h2, h3]

theorem data_loop_first (m : Nat) (cur : String) (lines : List String) (b : Nat)
    (rest : List Nat) :
    data_loop m 0 cur lines (b :: rest) = data_loop m 1 (cur ++ to_hex b) lines rest := by
  rw [data_loop]; simp

/-- The loop of `render_data_segment`, once a first byte is in the current line, closes the
rows of `rows_from`. -/
theorem data_loop_rows (m : Nat) (rest : List Nat) (j : Nat) (g : List Nat)
    (lines : List String) (hg : g ≠ []) :
    (let r := data_loop m (j + 1) (hex_line g) lines rest
     if r.2 ≠ "" then r.1 ++ [r.2] else r.1) =
      lines ++ (rows_from m j g rest).map hex_line := by
  induction rest generalizing j g lines with
  | nil =>
    have hne : hex_line g ≠ "" := hex_line_ne_empty hg
    simp [data_loop, rows_from, hne]
  | cons b rest ih =>
    rw [rows_from]
    by_cases hc : (j + 1) % m = 0
    · rw [data_loop_push m (j + 1) _ lines b rest (by omega) hc, if_pos hc]
      have := ih (j + 1) [b] (lines ++ [hex_line g]) (by simp)
      simp only [hex_line] at this
      rw [this]
      simp
    · rw [data_loop_extend m (j + 1) _ lines b rest (by omega) hc, if_neg hc]
      have := ih (j + 1) (g ++ [b]) lines (by simp)
      rw [hex_line_snoc b hg] at this
      exact this

theorem data_lines_eq (m : Nat) (data : List Nat) :
    data_lines m data = (rows_of m data).map hex_line := by
  cases data with
  | nil => simp [data_lines, data_loop, rows_of]
  | cons b rest =>
    unfold data_lines
    simp only
    rw [data_loop_first, String.empty_append]
    have := data_loop_rows m rest 0 [b] [] (by simp)
    simp only [hex_line, List.nil_append, Nat.zero_add] at this
    rw [rows_of]
    exact this

end Data

/-! ## Lemmas on the registers and instructions panels -/

section Panels

theorem registers_loop_skip (r : Nat) (hex : Int → String) (i : Nat) (cur els : List Element)
    (reg : Register) (rest : List Register) (h : reg.full = false) :
    registers_loop r hex i cur els (reg :: rest) = registers_loop r hex i cur els rest := by
  rw [registers_loop]; simp [h]

theorem registers_loop_push (r : Nat) (hex : Int → String) (i : Nat) (cur els : List Element)
    (reg : Register) (rest : List Register) (h : reg.full = true) (h1 : 0 < i)
    (h2 : i % r = 0) :
    registers_loop r hex i cur els (reg :: rest) =
      registers_loop r hex (i + 1) [register_cell hex reg] (els ++ [Element.hbox cur]) rest := by
  rw [registers_loop]; simp [h, h1, h2]

theorem registers_loop_extend (r : Nat) (hex : Int → String) (i : Nat) (cur els : List Element)
    (reg : Register) (rest : List Register) (h : reg.full = true)
    (h2 : ¬ (0 < i ∧ i % r = 0)) :
    registers_loop r hex i cur els (reg :: rest) =
      registers_loop r hex (i + 1) (cur ++ [register_cell hex reg]) els rest := by
  rw [registers_loop]
  have h3 : ¬ (i > 0 ∧ i % r = 0) := h2
  simp only [h, Bool.true_eq_false, if_false, h3]

/-- The loop of `render_registers`, once a first cell is in the current line, closes the rows
of `rows_from` on the full registers. -/
theorem registers_loop_rows (r : Nat) (hex : Int → String) (regs : List Register) (j : Nat)
    (g : List Register) (els : List Element) :
    (let st := registers_loop r hex (j + 1) (g.map (register_cell hex)) els regs
     st.1 ++ [Element.hbox st.2]) =
      els ++ (rows_from r j g (regs.filter (fun reg => reg.full))).map
        (fun row => Element.hbox (row.map (register_cell hex))) := by
  induction regs generalizing j g els with
  | nil => simp [registers_loop, rows_from]
  | cons reg rest ih =>
    cases hf : reg.full
    · rw [registers_loop_skip r hex _ _ _ reg rest hf, List.filter_cons_of_neg (by simp [hf])]
      exact ih j g els
    · rw [List.filter_cons_of_pos (by simp [hf]), rows_from]
      by_cases hc : (j + 1) % r = 0
      · rw [registers_loop_push r hex _ _ _ reg rest hf (by omega) hc, if_pos hc]
        have := ih (j + 1) [reg] (els ++ [Element.hbox (g.map (register_cell hex))])
        simp only [List.map_cons, List.map_nil] at this
        rw [this]
        simp
      · rw [registers_loop_extend r hex _ _ _ reg rest hf (fun h => hc h.2), if_neg hc]
        have := ih (j + 1) (g ++ [reg]) els
        simp only [List.map_append, List.map_cons, List.map_nil] at this
        exact this

theorem register_elements_eq (r : Nat) (hex : Int → String) (regs : List Register) :
    register_elements r hex regs =
      (register_rows r (regs.filter (fun reg => reg.full))).map
        (fun row => Element.hbox (row.map (register_cell hex))) := by
  unfold register_elements
  induction regs with
  | nil => simp [registers_loop, register_rows]
  | cons reg rest ih =>
    cases hf : reg.full
    · rw [registers_loop_skip r hex _ _ _ reg rest hf, List.filter_cons_of_neg (by simp [hf])]
      exact ih
    · rw [registers_loop_extend r hex _ _ _ reg rest hf (fun h => absurd h.1 (by omega)),
        List.filter_cons_of_pos (by simp [hf]), register_rows]
      have := registers_loop_rows r hex rest 0 [reg] []
      simp only [List.map_cons, List.map_nil, List.nil_append, Nat.zero_add] at this
      exact this

theorem wrap_int_of_range (x : Int) (h : in_int_range x) : wrap_int x = x := by
  unfold in_int_range at h
  unfold wrap_int
  omega

theorem wrap_int_range (x : Int) : in_int_range (wrap_int x) := by
  unfold in_int_range wrap_int
  omega

end Panels

/-! ## Claims on the panels -/

section PanelClaims

/-- C11: for `m = MEMORY_BYTES_PER_LINE > 0` and bytes `data` of length `n`, the lines of the
data-segment panel are the hex rows (pairs separated by single spaces) of `ceil(n / m)` rows of
bytes that concatenate to `data`, so the bytes are in read order; every row except the last has
`m` bytes and the last row has the bytes that are left, between 1 and `m`, with no padding; when
`m` divides `n` every row is full, and 108 bytes with `m = 12` give exactly 9 full rows. -/
theorem data_segment_grouping (m : Nat) (hm : 0 < m) (data : List Nat) :
    ∃ rows : List (List Nat),
      data_lines m data = rows.map hex_line ∧
      rows.flatten = data ∧
      rows.length = (data.length + m - 1) / m ∧
      (∀ row ∈ rows.dropLast, row.length = m) ∧
      (∀ last, rows.getLast? = some last →
        last.length = data.length - m * (rows.length - 1) ∧
          0 < last.length ∧ last.length ≤ m) ∧
      (data.length % m = 0 → ∀ row ∈ rows, row.length = m) ∧
      (m = 12 → data.length = 108 → rows.length = 9 ∧ ∀ row ∈ rows, row.length = 12) := by
  have hfull : ∀ rows : List (List Nat), ∀ init last, rows = init ++ [last] →
      (∀ row ∈ init, row.length = m) → last.length = m → ∀ row ∈ rows, row.length = m := by
    intro rows init last he hi hl row hrow
    rw [he] at hrow
    rcases List.mem_append.1 hrow with h | h
    · exact hi row h
    · rw [List.mem_singleton.1 h]; exact hl
  refine ⟨rows_of m data, data_lines_eq m data, rows_of_flatten m data,
    rows_of_length m hm data, ?_⟩
  cases data with
  | nil =>
    refine ⟨by simp [rows_of], by simp [rows_of], by simp [rows_of], ?_⟩
    intro _ h
    simp at h
  | cons b rest =>
    obtain ⟨init, last, he, hi, hl, hl2⟩ := rows_of_shape m hm b rest
    have hlt := Nat.mod_lt rest.length hm
    have hdiv : (b :: rest).length % m = 0 → last.length = m := by
      intro h0
      rw [hl]
      exact succ_mod_of_eq hm h0
    refine ⟨?_, ?_, ?_, ?_⟩
    · rw [he, List.dropLast_concat]
      exact hi
    · intro l hlast
      rw [he, List.getLast?_concat] at hlast
      have hll : last = l := Option.some.inj hlast
      subst hll
      refine ⟨hl2, ?_, ?_⟩
      · rw [hl]; omega
      · rw [hl]; omega
    · intro h0
      exact hfull _ init last he hi (hdiv h0)
    · intro h12 h108
      subst h12
      refine ⟨?_, ?_⟩
      · rw [rows_of_length 12 hm, h108]
      · exact hfull _ init last he hi (hdiv (by rw [h108]))

/-- Witness of C11: six bytes in lines of four give a full line and a line of two. -/
theorem data_segment_grouping_witness :
    data_lines 4 [1, 2, 3, 4, 5, 6] = ["01 02 03 04", "05 06"] ∧
    ∃ rows : List (List Nat),
      data_lines 4 [1, 2, 3, 4, 5, 6] = rows.map hex_line ∧
      rows.flatten = [1, 2, 3, 4, 5, 6] ∧
      rows.length = ([1, 2, 3, 4, 5, 6].length + 4 - 1) / 4 ∧
      (∀ row ∈ rows.dropLast, row.length = 4) ∧
      (∀ last, rows.getLast? = some last →
        last.length = [1, 2, 3, 4, 5, 6].length - 4 * (rows.length - 1) ∧
          0 < last.length ∧ last.length ≤ 4) ∧
      ([1, 2, 3, 4, 5, 6].length % 4 = 0 → ∀ row ∈ rows, row.length = 4) ∧
      (4 = 12 → [1, 2, 3, 4, 5, 6].length = 108 →
        rows.length = 9 ∧ ∀ row ∈ rows, row.length = 12) :=
  ⟨by decide, data_segment_grouping 4 (by decide) [1, 2, 3, 4, 5, 6]⟩

/-- C12, as stated, fails on register values outside the range of `int`, without any
overflow of an `int` operation: with the instruction pointer at `2^31 + 100` and the code
segment at 4096 the window start is 4096 and not `max(cs, cs + ip - 64)`; with the code segment
at `2^32 + 4096` and the instruction pointer at 64 the window start is 4096, below the
code-segment base. -/
theorem instruction_window_start_truncated :
    (in_int_range (to_int (2 ^ 31 + 100) + to_int 4096) ∧
      in_int_range (to_int (2 ^ 31 + 100) + to_int 4096 - ((8 : Nat) : Int) * 8) ∧
      start_address 8 (2 ^ 31 + 100) 4096 = 4096 ∧
      max ((4096 : Nat) : Int)
        (((4096 : Nat) : Int) + ((2 ^ 31 + 100 : Nat) : Int) - ((8 : Nat) : Int) * 8)
        = 2147487780) ∧
    (in_int_range (to_int 64 + to_int (2 ^ 32 + 4096)) ∧
      start_address 8 64 (2 ^ 32 + 4096) = 4096 ∧
      start_address 8 64 (2 ^ 32 + 4096) < ((2 ^ 32 + 4096 : Nat) : Int)) := by
  decide

/-- C12, amended: for every instruction pointer `ip` and code-segment base `cs` whose sum
`cs + ip` is in the range of `int` (so both values are, and the conversions to `int` keep
them), with `INSTRUCTIONS_RANGE * 8` in that range too, the window start passed to
`get_instructions` is `max(cs, cs + ip - INSTRUCTIONS_RANGE * 8)` on the register values, it is
never less than the code-segment base, and the count passed is `INSTRUCTIONS_RANGE * 2`. -/
theorem instruction_window_start (R ip cs : Nat) (mem : InstructionMemory)
    (hsum : cs + ip < 2 ^ 31) (hR : R * 8 < 2 ^ 31) :
    start_address R ip cs = max (cs : Int) ((cs : Int) + (ip : Int) - (R : Int) * 8) ∧
    (cs : Int) ≤ start_address R ip cs ∧
    read_instructions R mem ip cs =
      mem.get_instructions (max (cs : Int) ((cs : Int) + (ip : Int) - (R : Int) * 8))
        ((R : Int) * 2) := by
  have hto : ∀ x : Nat, x < 2 ^ 31 → to_int x = (x : Int) := by
    intro x hx
    unfold to_int
    have h1 : x % 2 ^ 32 = x := Nat.mod_eq_of_lt (by omega)
    rw [h1, if_pos hx]
  have hip : to_int ip = (ip : Int) := hto ip (by omega)
  have hcs : to_int cs = (cs : Int) := hto cs (by omega)
  have h1 : in_int_range ((ip : Int) + (cs : Int)) := by
    unfold in_int_range; omega
  have h2 : in_int_range ((R : Int) * 8) := by
    unfold in_int_range; omega
  have h3 : in_int_range ((ip : Int) + (cs : Int) - (R : Int) * 8) := by
    unfold in_int_range; omega
  have h4 : in_int_range ((R : Int) * 2) := by
    unfold in_int_range; omega
  have hstart : start_address R ip cs =
      max (cs : Int) ((cs : Int) + (ip : Int) - (R : Int) * 8) := by
    unfold start_address current_instruction
    rw [hip, hcs, wrap_int_of_range _ h1, wrap_int_of_range _ h2, wrap_int_of_range _ h3,
      Int.add_comm (ip : Int) (cs : Int)]
  refine ⟨hstart, ?_, ?_⟩
  · rw [hstart]; exact le_max_left _ _
  · rw [read_instructions, hstart, instructions_count, wrap_int_of_range _ h4]

/-- Witness of the amended C12 at `ip = 0` and at an `ip` larger than
`INSTRUCTIONS_RANGE * 8`, for `INSTRUCTIONS_RANGE = 8` and the code segment at 4096: the
window starts at 4096 and at 4132, and 16 instructions are asked for. -/
theorem instruction_window_start_witness :
    (start_address 8 0 4096 = 4096 ∧ start_address 8 100 4096 = 4132) ∧
    (start_address 8 0 4096 =
        max ((4096 : Nat) : Int) (((4096 : Nat) : Int) + ((0 : Nat) : Int) - ((8 : Nat) : Int) * 8) ∧
      ((4096 : Nat) : Int) ≤ start_address 8 0 4096 ∧
      read_instructions 8 demoInstructions 0 4096 =
        demoInstructions.get_instructions
          (max ((4096 : Nat) : Int)
            (((4096 : Nat) : Int) + ((0 : Nat) : Int) - ((8 : Nat) : Int) * 8))
          (((8 : Nat) : Int) * 2)) ∧
    (start_address 8 100 4096 =
        max ((4096 : Nat) : Int)
          (((4096 : Nat) : Int) + ((100 : Nat) : Int) - ((8 : Nat) : Int) * 8) ∧
      ((4096 : Nat) : Int) ≤ start_address 8 100 4096 ∧
      read_instructions 8 demoInstructions 100 4096 =
        demoInstructions.get_instructions
          (max ((4096 : Nat) : Int)
            (((4096 : Nat) : Int) + ((100 : Nat) : Int) - ((8 : Nat) : Int) * 8))
          (((8 : Nat) : Int) * 2)) :=
  ⟨by decide,
   instruction_window_start 8 0 4096 demoInstructions (by decide) (by decide),
   instruction_window_start 8 100 4096 demoInstructions (by decide) (by decide)⟩

/-- C13: for `r = REGISTERS_PER_LINE > 0`, the rows of the registers panel are the cells of
rows of registers that concatenate to the full-width registers of the mapping in iteration
order (sub-width aliases are skipped); every row except the final one has exactly `r` cells and
no row has more than `r`. -/
theorem register_rows_layout (r : Nat) (hr : 0 < r) (hex : Int → String)
    (registers : List Register) :
    ∃ rows : List (List Register),
      register_elements r hex registers =
        rows.map (fun row => Element.hbox (row.map (register_cell hex))) ∧
      rows.flatten = registers.filter (fun reg => reg.full) ∧
      (∀ row ∈ rows.dropLast, row.length = r) ∧
      (∀ row ∈ rows, row.length ≤ r) := by
  refine ⟨register_rows r (registers.filter (fun reg => reg.full)),
    register_elements_eq r hex registers, ?_⟩
  cases hfl : registers.filter (fun reg => reg.full) with
  | nil => simp [register_rows]
  | cons b rest =>
    obtain ⟨init, last, he, hi, hl, _⟩ := rows_of_shape r hr b rest
    rw [rows_of] at he
    have hlt := Nat.mod_lt rest.length hr
    rw [register_rows, he]
    refine ⟨?_, ?_, ?_⟩
    · rw [← he, rows_from_flatten]; rfl
    · rw [List.dropLast_concat]; exact hi
    · intro row hrow
      rcases List.mem_append.1 hrow with h | h
      · exact le_of_eq (hi row h)
      · rw [List.mem_singleton.1 h, hl]; omega

/-- Witness of C13: eight full registers and two aliases in rows of 6 give a row of six and a
row of two. -/
theorem register_rows_layout_witness :
    ∃ rows : List (List Register),
      register_elements 6 demoHex demoRegisters =
        rows.map (fun row => Element.hbox (row.map (register_cell demoHex))) ∧
      rows.flatten = demoRegisters.filter (fun reg => reg.full) ∧
      (∀ row ∈ rows.dropLast, row.length = 6) ∧
      (∀ row ∈ rows, row.length ≤ 6) :=
  register_rows_layout 6 (by decide) demoHex demoRegisters

/-- C15: for `k = STACK_BYTES_PER_LINE > 0` and `n` bytes read, the body of the stack panel has
`max(STACK_HEIGHT, ceil(n / k))` text lines: blank lines followed by all the content lines, none
cut off; so it has exactly `STACK_HEIGHT` lines precisely when `ceil(n / k) <= STACK_HEIGHT`,
and it has `STACK_HEIGHT` lines for every read of at most 120 bytes precisely when
`ceil(120 / k) <= STACK_HEIGHT`. -/
theorem stack_lines_count (K : StackConstants) (hk : 0 < K.STACK_BYTES_PER_LINE)
    (stack : List Nat) :
    (stack_lines K stack).length =
      max K.STACK_HEIGHT
        ((stack.length + K.STACK_BYTES_PER_LINE - 1) / K.STACK_BYTES_PER_LINE) ∧
    (∃ blank, stack_lines K stack = List.replicate blank (Element.text "") ++
      (stack_content_lines K.STACK_BYTES_PER_LINE stack).map Element.text) ∧
    (stack_content_lines K.STACK_BYTES_PER_LINE stack).length =
      (stack.length + K.STACK_BYTES_PER_LINE - 1) / K.STACK_BYTES_PER_LINE ∧
    ((stack_lines K stack).length = K.STACK_HEIGHT ↔
      (stack.length + K.STACK_BYTES_PER_LINE - 1) / K.STACK_BYTES_PER_LINE ≤ K.STACK_HEIGHT) ∧
    ((∀ s : List Nat, s.length ≤ 120 → (stack_lines K s).length = K.STACK_HEIGHT) ↔
      (120 + K.STACK_BYTES_PER_LINE - 1) / K.STACK_BYTES_PER_LINE ≤ K.STACK_HEIGHT) := by
  have hcontent : ∀ s : List Nat, (stack_content_lines K.STACK_BYTES_PER_LINE s).length =
      (s.length + K.STACK_BYTES_PER_LINE - 1) / K.STACK_BYTES_PER_LINE := by
    intro s
    rw [stack_content_lines_eq _ hk, List.length_map, stack_groups_length _ hk]
  have hlen : ∀ s : List Nat, (stack_lines K s).length =
      max K.STACK_HEIGHT
        ((s.length + K.STACK_BYTES_PER_LINE - 1) / K.STACK_BYTES_PER_LINE) := by
    intro s
    unfold stack_lines
    simp only [List.length_append, List.length_replicate, List.length_map]
    rw [hcontent s]
    omega
  have hiff : ∀ s : List Nat, ((stack_lines K s).length = K.STACK_HEIGHT ↔
      (s.length + K.STACK_BYTES_PER_LINE - 1) / K.STACK_BYTES_PER_LINE ≤ K.STACK_HEIGHT) := by
    intro s
    rw [hlen s]
    omega
  refine ⟨hlen stack, ⟨_, rfl⟩, hcontent stack, hiff stack, ?_, ?_⟩
  · intro h
    have := (hiff (List.replicate 120 0)).1 (h _ (by simp))
    simpa using this
  · intro h s hs
    exact (hiff s).2 (le_trans (Nat.div_le_div_right (by omega)) h)

/-- Witness of C15: with 3 lines of 4 bytes, 24 bytes give 6 lines, and 8 bytes give 3. -/
theorem stack_lines_count_witness :
    (stack_lines demoLowConstants (List.range 24)).length = max 3 ((24 + 4 - 1) / 4) ∧
    (stack_lines demoLowConstants (List.range 24)).length = 6 ∧
    (stack_lines demoLowConstants (List.range 8)).length = 3 :=
  ⟨(stack_lines_count demoLowConstants (by decide) (List.range 24)).1, by decide, by decide⟩

/-- C16: when the instruction pointer is not negative and the `int` operations do not
overflow, the window start is at most the current address `cs + ip` and at most
`INSTRUCTIONS_RANGE * 8` below it; it is `cs + ip - INSTRUCTIONS_RANGE * 8` exactly when
`ip >= INSTRUCTIONS_RANGE * 8`, and it is `cs` otherwise. -/
theorem instruction_window_bounds (R ip cs : Nat) (hip : 0 ≤ to_int ip)
    (h1 : in_int_range (to_int ip + to_int cs)) (h2 : in_int_range ((R : Int) * 8))
    (h3 : in_int_range (to_int ip + to_int cs - (R : Int) * 8)) :
    current_instruction ip cs = to_int cs + to_int ip ∧
    start_address R ip cs ≤ to_int cs + to_int ip ∧
    to_int cs + to_int ip - start_address R ip cs ≤ (R : Int) * 8 ∧
    (start_address R ip cs = to_int cs + to_int ip - (R : Int) * 8 ↔
      (R : Int) * 8 ≤ to_int ip) ∧
    (to_int ip < (R : Int) * 8 → start_address R ip cs = to_int cs) := by
  have hcur : current_instruction ip cs = to_int cs + to_int ip := by
    rw [current_instruction, wrap_int_of_range _ h1, Int.add_comm]
  have hstart : start_address R ip cs =
      max (to_int cs) (to_int cs + to_int ip - (R : Int) * 8) := by
    unfold start_address
    rw [hcur, wrap_int_of_range _ h2, Int.add_comm (to_int cs) (to_int ip),
      wrap_int_of_range _ h3]
  have hR : (0 : Int) ≤ (R : Int) * 8 := by omega
  refine ⟨hcur, ?_, ?_, ?_, ?_⟩
  · rw [hstart]; omega
  · rw [hstart]; omega
  · rw [hstart]; omega
  · intro h; rw [hstart]; omega

/-- Witness of C16 for `INSTRUCTIONS_RANGE = 8`, the code segment at 4096 and the instruction
pointer at 100: the window starts 64 bytes below the current address. -/
theorem instruction_window_bounds_witness :
    (0 ≤ to_int 100 ∧ in_int_range (to_int 100 + to_int 4096)) ∧
    (current_instruction 100 4096 = to_int 4096 + to_int 100 ∧
    start_address 8 100 4096 ≤ to_int 4096 + to_int 100 ∧
    to_int 4096 + to_int 100 - start_address 8 100 4096 ≤ ((8 : Nat) : Int) * 8 ∧
    (start_address 8 100 4096 = to_int 4096 + to_int 100 - ((8 : Nat) : Int) * 8 ↔
      ((8 : Nat) : Int) * 8 ≤ to_int 100) ∧
    (to_int 100 < ((8 : Nat) : Int) * 8 → start_address 8 100 4096 = to_int 4096)) :=
  ⟨by decide, instruction_window_bounds 8 100 4096 (by decide) (by decide) (by decide)
    (by decide)⟩

end PanelClaims

end UI
